import Mathlib

/-!
Verification of the Medbrief clinical-note service.

The Python sources are shallowly embedded over `Str := List Char`.
External pretrained models and the remote chat-completion API are
modelled as oracle parameters (functions passed to the embedded code);
everything the repository itself computes (string handling, regex
passes, selection logic, response assembly) is translated directly.
-/

set_option maxHeartbeats 1000000

/-! ## Python string primitives -/

/-- Strings are modelled as lists of characters. -/
abbrev Str := List Char

/-- Turn a Lean string literal into the model type. -/
def str (s : String) : Str := s.data

/-- The whitespace characters recognised by Python's `str.strip` /
regex `\s` (ASCII range). -/
def wsB (c : Char) : Bool :=
  c = ' ' || c = '\t' || c = '\n' || c = '\r' || c = '\x0b' || c = '\x0c'

/-- Python `str.strip`, left part. -/
def pyStripL (s : Str) : Str := s.dropWhile wsB

/-- Python `str.strip`, right part. -/
def pyStripR (s : Str) : Str := (s.reverse.dropWhile wsB).reverse

/-- Python `str.strip()`. -/
def pyStrip (s : Str) : Str := pyStripR (pyStripL s)

/-- ASCII lower-casing of a single character (Python `str.lower` on the
character data appearing in this code base). -/
def lowCh : Char → Char
  | 'A' => 'a' | 'B' => 'b' | 'C' => 'c' | 'D' => 'd' | 'E' => 'e'
  | 'F' => 'f' | 'G' => 'g' | 'H' => 'h' | 'I' => 'i' | 'J' => 'j'
  | 'K' => 'k' | 'L' => 'l' | 'M' => 'm' | 'N' => 'n' | 'O' => 'o'
  | 'P' => 'p' | 'Q' => 'q' | 'R' => 'r' | 'S' => 's' | 'T' => 't'
  | 'U' => 'u' | 'V' => 'v' | 'W' => 'w' | 'X' => 'x' | 'Y' => 'y'
  | 'Z' => 'z'
  | c => c

/-- Python `str.lower()`. -/
def pyLower (s : Str) : Str := s.map lowCh

/-- Python `str.isdigit()` (ASCII digits). -/
def pyIsDigit (s : Str) : Bool := !s.isEmpty && s.all Char.isDigit

/-- Python `str.startswith(p)`. -/
def startsWithStr (p s : Str) : Bool := s.take p.length = p

/-- Python `sep.flatten(parts)`. -/
def joinSep (sep : Str) : List Str → Str
  | [] => []
  | [x] => x
  | x :: xs => x ++ sep ++ joinSep sep xs

/-- Python `s.split('\n')`. -/
def splitNl (s : Str) : List Str :=
  match s with
  | [] => [[]]
  | c :: t =>
    match splitNl t with
    | [] => [[c]]
    | p :: ps => if c = '\n' then [] :: p :: ps else (c :: p) :: ps

/-- Worker for `dict.fromkeys`-style deduplication: keep the first
occurrence of each element not yet seen, in order. -/
def nubAux (seen : List Str) : List Str → List Str
  | [] => []
  | x :: xs => if seen.contains x then nubAux seen xs else x :: nubAux (x :: seen) xs

/-- `list(dict.fromkeys(l))`: deduplicate keeping first occurrences. -/
def nubStr (l : List Str) : List Str := nubAux [] l

/-! ## Summarizer (`app/nlp/summarizer.py`)

`get_sentence_embedding` runs ClinicalBERT; the whole embedding/cosine
step is abstracted as an oracle `sim : Str → Str → ℚ` giving the cosine
similarity of a sentence's embedding to the embedding of a text. -/

/-- Characters on which `re.split(r'(?<=[.!?]) +', …)` splits. -/
def isEnder (c : Char) : Bool := c = '.' || c = '!' || c = '?'

/-- All adjacent character pairs of a string satisfy `p`. -/
def adjOK (p : Char → Char → Bool) : Str → Bool
  | a :: b :: t => p a b && adjOK p (b :: t)
  | _ => true

/-- No two adjacent whitespace characters. -/
def noDoubleWs (s : Str) : Bool := adjOK (fun a b => !(wsB a && wsB b)) s

/-- First character (of a nonempty string) is not whitespace. -/
def headNW (s : Str) : Bool :=
  match s with
  | [] => true
  | c :: _ => !wsB c

/-- Last character (of a nonempty string) is not whitespace. -/
def lastNW (s : Str) : Bool := headNW s.reverse

/-- A "good" sentence part: nonempty and already stripped. -/
def GoodPart (p : Str) : Prop := p ≠ [] ∧ headNW p = true ∧ lastNW p = true

/-- Worker for `re.split(r'(?<=[.!?]) +', s)`: split at every maximal run
of spaces that is preceded by `.`, `!` or `?`.  `prev` is the character
just before the current position; `skip` records that we are inside the
run of spaces consumed by the separator `" +"`. -/
def reSplitGo (prev : Option Char) (skip : Bool) (s : Str) : List Str :=
  match s with
  | [] => [[]]
  | c :: t =>
    if skip && c = ' ' then
      reSplitGo (some ' ') true t
    else if !skip && (c = ' ' && (match prev with | some p => isEnder p | none => false)) then
      [] :: reSplitGo (some ' ') true t
    else
      match reSplitGo (some c) false t with
      | [] => [[c]]
      | p :: ps => (c :: p) :: ps

/-- `split_sentences` from `app/nlp/summarizer.py`:
`re.split(r'(?<=[.!?]) +', text.strip())`. -/
def split_sentences (text : Str) : List Str := reSplitGo none false (pyStrip text)

/-- The fixed message returned for blank input. -/
def noSummaryMsg : Str := str "Summary not available — insufficient clinical content."

/-- Insert an index into a list of indices that is sorted by
(weakly decreasing) key, before the first entry with a strictly
smaller key — the stable descending order produced by Python's
`sorted(…, key=…, reverse=True)`. -/
def insertDescQ (key : Nat → ℚ) (i : Nat) : List Nat → List Nat
  | [] => [i]
  | j :: t => if key j ≤ key i then i :: j :: t else j :: insertDescQ key i t

/-- Stable sort of indices by descending key
(`sorted(range(n), key=…, reverse=True)`). -/
def sortDescQ (key : Nat → ℚ) : List Nat → List Nat
  | [] => []
  | x :: xs => insertDescQ key x (sortDescQ key xs)

/-- Insertion step for Python `list.sort()` on ints. -/
def insertAsc (i : Nat) : List Nat → List Nat
  | [] => [i]
  | j :: t => if i ≤ j then i :: j :: t else j :: insertAsc i t

/-- Python `list.sort()` on a list of ints. -/
def sortAsc : List Nat → List Nat
  | [] => []
  | x :: xs => insertAsc x (sortAsc xs)

/-- `summarize_note` from `app/nlp/summarizer.py`, with the
ClinicalBERT cosine-similarity computation abstracted as `sim`. -/
def summarize_note (sim : Str → Str → ℚ) (text : Str) (numSentences : Nat := 3) : Str :=
  if pyStrip text = [] then noSummaryMsg
  else
    let sentences := ((split_sentences text).map pyStrip).filter (fun s => s ≠ [])
    if sentences.length ≤ numSentences then joinSep (str " ") sentences
    else
      let similarities := sentences.map (fun s => sim s text)
      let key := fun i => similarities.getD i 0
      let top_indices := (sortDescQ key (List.range sentences.length)).take numSentences
      let topSorted := sortAsc top_indices
      joinSep (str " ") (topSorted.map (fun i => sentences.getD i []))

/-- The sentence list computed inside `summarize_note`. -/
def sentencesOf (text : Str) : List Str :=
  ((split_sentences text).map pyStrip).filter (fun s => s ≠ [])

/-- The similarity list computed inside `summarize_note`. -/
def simsOf (sim : Str → Str → ℚ) (text : Str) : List ℚ :=
  (sentencesOf text).map (fun s => sim s text)

/-- The selected (and re-sorted) sentence indices of `summarize_note`. -/
def topIdx (sim : Str → Str → ℚ) (text : Str) (n : Nat) : List Nat :=
  sortAsc ((sortDescQ (fun i => (simsOf sim text).getD i 0)
    (List.range (sentencesOf text).length)).take n)

/-! ## Diagnosis client (`app/diagnosis_api.py`)

The four field patterns all have the shape
`Label:\s*(.+?)(?:\s{2,}|$|\n)` compiled with `re.DOTALL | re.IGNORECASE`,
searched with `re.search`.  The matcher below implements exactly this
family: scan left to right for a case-insensitive occurrence of the
label; after it, `\s*` consumes a greedy (backtrackable) whitespace run,
the lazy group `(.+?)` takes the shortest nonempty stretch of arbitrary
characters whose end position satisfies the terminator
`\s{2,}` / end-of-input (`$`) / `\n`. -/

/-- Case-insensitive character comparison (`re.IGNORECASE`). -/
def ciEqCh (a b : Char) : Bool := lowCh a = lowCh b

/-- `pat` matches case-insensitively at the start of `s`. -/
def ciPref : Str → Str → Bool
  | [], _ => true
  | _ :: _, [] => false
  | a :: pa, b :: sb => ciEqCh a b && ciPref pa sb

/-- `pat` occurs case-insensitively somewhere in `s`. -/
def ciSubB (pat : Str) : Str → Bool
  | [] => ciPref pat []
  | c :: t => ciPref pat (c :: t) || ciSubB pat t

/-- Two whitespace characters at the current position (`\s{2,}`). -/
def twoWs : Str → Bool
  | a :: b :: _ => wsB a && wsB b
  | _ => false

/-- The terminator `(?:\s{2,}|$|\n)` tested at a position. -/
def termB (s : Str) : Bool :=
  twoWs s || s.isEmpty || s.head? = some '\n'

/-- Lazy `(.+?)`: the shortest nonempty prefix whose end position
satisfies the terminator. -/
def lazyG : Str → Option Str
  | [] => none
  | c :: t => if termB t then some [c] else (lazyG t).map (fun g => c :: g)

/-- Greedy `\s*` backtracking: try consuming `k` whitespace characters,
from `k` down to `0`, before the lazy group. -/
def tryFrom (rest : Str) : Nat → Option Str
  | 0 => lazyG rest
  | k+1 =>
    match lazyG (rest.drop (k+1)) with
    | some g => some g
    | none => tryFrom rest k

/-- Run `\s*(.+?)(?:\s{2,}|$|\n)` at the position just after the label. -/
def engineLab (rest : Str) : Option Str :=
  tryFrom rest (rest.takeWhile wsB).length

/-- `re.search` for `label` + `\s*(.+?)(?:\s{2,}|$|\n)`: returns the
captured group of the leftmost match. -/
def searchLab (label : Str) : Str → Option Str
  | [] => none
  | c :: t =>
    if ciPref label (c :: t) then
      match engineLab ((c :: t).drop label.length) with
      | some g => some g
      | none => searchLab label t
    else searchLab label t

/-- Python `response.replace("**", "")` (left-to-right, non-overlapping). -/
def removeDS : Str → Str
  | '*' :: '*' :: t => removeDS t
  | c :: t => c :: removeDS t
  | [] => []

def ldLabel : Str := str "Likely Diagnosis:"
def rsLabel : Str := str "Reasoning:"
def urLabel : Str := str "Urgency:"
def nsLabel : Str := str "Next Steps:"

/-- One entry of the result dict: the stripped captured group, or the
empty string when the pattern does not match. -/
def fieldOf (label : Str) (r : Str) : Str :=
  match searchLab label r with
  | some g => pyStrip g
  | none => []

/-- `parse_diagnosis_response` from `app/diagnosis_api.py`: strip
markdown bold, then populate the four keys in order. -/
def parse_diagnosis_response (response : Str) : List (Str × Str) :=
  let r := removeDS response
  [ (str "likely_diagnosis", fieldOf ldLabel r),
    (str "reasoning", fieldOf rsLabel r),
    (str "urgency", fieldOf urLabel r),
    (str "next_steps", fieldOf nsLabel r) ]

/-- Python `.replace("\\n", "\n")` (on the reply: backslash + `n`
becomes a newline). -/
def replaceEscN : Str → Str
  | '\\' :: 'n' :: t => '\n' :: replaceEscN t
  | c :: t => c :: replaceEscN t
  | [] => []

/-- The fixed prompt template of `suggest_diagnosis`. -/
def diagnosisPrompt (symptoms conditions medications : Str) : Str :=
  str "\nContext:\nThe following patient data has been extracted:\n- Symptoms: " ++ symptoms ++
  str "\n- Previous Conditions: " ++ conditions ++
  str "\n- Medications: " ++ medications ++
  str "\n\nBased on this, generate a concise diagnostic summary.\n\nYour task:\n1. List the most likely diagnosis (or differential diagnoses if unclear)\n2. Briefly explain reasoning based on symptoms and history\n3. Indicate urgency (e.g., emergency, urgent care, routine)\n4. Suggest next clinical steps (e.g., tests, referrals, treatment)\n\nTone: Keep it professional, brief, and free of generic AI language. Prioritize clarity over verbosity.\n\nOutput Format Example:\n\n---\nLikely Diagnosis: [Condition Name]  \nReasoning: [Short rationale]  \nUrgency: [Emergency/Urgent/Routine]  \nNext Steps: [Relevant tests/treatments/referrals]\n---\n"

def errPre : Str := str "Diagnosis service error: "

/-- `suggest_diagnosis` from `app/diagnosis_api.py`.  The OpenRouter
chat-completion interaction inside the `try` block is abstracted as
`callApi`, mapping the prompt to either the reply content (`.ok`) or
the text of a raised exception (`.error`, caught by `except Exception`). -/
def suggest_diagnosis (callApi : Str → Except Str Str)
    (symptoms conditions medications : Str) : Str :=
  match callApi (diagnosisPrompt symptoms conditions medications) with
  | .ok content => replaceEscN (pyStrip content)
  | .error e => errPre ++ e

/-- No case-insensitive occurrence of `L` starting inside `A` (viewing
`A ++ B` from each offset in `A`). -/
def NoStartP (L A B : Str) : Prop :=
  ∀ i, i < A.length → ciPref L (List.drop i (A ++ B)) = false

/-- A well-formed field value: nonempty, stripped (non-whitespace at both
ends), no double whitespace, and no newline. -/
@[reducible] def GoodVal (v : Str) : Prop :=
  v ≠ [] ∧ headNW v = true ∧ lastNW v = true ∧ noDoubleWs v = true ∧ (∀ c ∈ v, c ≠ '\n')

/-- The fixed labeled reply format expected by `parse_diagnosis_response`
(after markdown-bold stripping). -/
def mkResp (d r u n : Str) : Str :=
  str "Likely Diagnosis: " ++ (d ++ (str "\nReasoning: " ++ (r ++ (str "\nUrgency: " ++
    (u ++ (str "\nNext Steps: " ++ n))))))

/-- The field value contains no (case-insensitive) occurrence of a later
label. -/
@[reducible] def NoLabs (v : Str) : Prop :=
  ciSubB rsLabel v = false ∧ ciSubB urLabel v = false ∧ ciSubB nsLabel v = false

/-- Python dict lookup on the association-list model of the result. -/
def lookupStr : List (Str × Str) → Str → Option Str
  | [], _ => none
  | (k', v) :: t, k => if k' = k then some v else lookupStr t k

/-! ## A small backtracking regex engine for the `app/nlp/ner.py` patterns

Every repetition operator in those patterns applies to a single-character
class, which the AST below enforces; matching therefore terminates
structurally while reproducing Python's backtracking order exactly:
alternation tries the left branch first, greedy repetition tries longer
runs first, lazy repetition shorter runs first, and `re.finditer` scans
left to right yielding non-overlapping matches. -/

inductive RE where
  | eps : RE
  | cls : (Char → Bool) → RE
  | seq : RE → RE → RE
  | alt : RE → RE → RE
  | rep : (Char → Bool) → Nat → Option Nat → Bool → RE
  | grp : Nat → RE → RE
  | wordB : RE
  | eos : RE
  | look : RE → RE

/-- Regex word character `\w` (ASCII model). -/
def isWordCh (c : Char) : Bool := c.isAlpha || c.isDigit || c = '_'

def isWordO : Option Char → Bool
  | some c => isWordCh c
  | none => false

/-- Captured groups, most recent first. -/
abbrev Caps := List (Nat × Str)

def grpGet : Caps → Nat → Option Str
  | [], _ => none
  | (j, s) :: t, i => if j = i then some s else grpGet t i

def firstSome (f : Nat → Option (Str × Caps)) : List Nat → Option (Str × Caps)
  | [] => none
  | x :: t =>
    match f x with
    | some b => some b
    | none => firstSome f t

/-- CPS backtracking matcher.  `prev` is the character before the current
position (for `\b`), `s` the rest of the input.  The continuation
receives the updated position state; the final result is the leftover
input and the captures of the first overall success in engine order. -/
def mat : RE → Option Char → Str → Caps →
    (Option Char → Str → Caps → Option (Str × Caps)) → Option (Str × Caps)
  | .eps, prev, s, caps, k => k prev s caps
  | .cls p, _, s, caps, k =>
    match s with
    | [] => none
    | c :: t => if p c then k (some c) t caps else none
  | .seq a b, prev, s, caps, k =>
    mat a prev s caps (fun prev' s' caps' => mat b prev' s' caps' k)
  | .alt a b, prev, s, caps, k =>
    match mat a prev s caps k with
    | some res => some res
    | none => mat b prev s caps k
  | .rep p lo hi greedy, prev, s, caps, k =>
    let run := (s.takeWhile p).length
    let top := match hi with | some h => min run h | none => run
    if top < lo then none
    else
      let cands := (List.range (top - lo + 1)).map
        (fun j => if greedy then top - j else lo + j)
      firstSome (fun m =>
        k (if m = 0 then prev else (s.take m).getLast?) (s.drop m) caps) cands
  | .grp i a, prev, s, caps, k =>
    mat a prev s caps (fun prev' s' caps' =>
      k prev' s' ((i, s.take (s.length - s'.length)) :: caps'))
  | .wordB, prev, s, caps, k =>
    if isWordO prev != isWordO s.head? then k prev s caps else none
  | .eos, prev, s, caps, k =>
    if s.isEmpty || s = ['\n'] then k prev s caps else none
  | .look a, prev, s, caps, k =>
    match mat a prev s caps (fun _ s' caps' => some (s', caps')) with
    | some (_, caps') => k prev s caps'
    | none => none

/-- Attempt a match at the current position; on success return the number
of consumed characters and the captures. -/
def matchHere (r : RE) (prev : Option Char) (s : Str) : Option (Nat × Caps) :=
  match mat r prev s [] (fun _ s' caps => some (s', caps)) with
  | some (s', caps) => some (s.length - s'.length, caps)
  | none => none

/-- One match of `re.finditer`: the matched text (group 0) and captures. -/
structure MatchM where
  matched : Str
  caps : Caps

/-- Fuel-driven scan for `re.finditer`; fuel `s.length + 1` suffices. -/
def finditGo (r : RE) : Nat → Option Char → Str → List MatchM
  | 0, _, _ => []
  | fuel+1, prev, s =>
    match matchHere r prev s with
    | some (n, caps) =>
      if n = 0 then
        ⟨[], caps⟩ :: (match s with
          | [] => []
          | c :: t => finditGo r fuel (some c) t)
      else
        ⟨s.take n, caps⟩ :: finditGo r fuel ((s.take n).getLast?) (s.drop n)
    | none =>
      match s with
      | [] => []
      | c :: t => finditGo r fuel (some c) t

/-- `re.finditer(pattern, s)`. -/
def finditer (r : RE) (s : Str) : List MatchM := finditGo r (s.length + 1) none s

/-- Sequencing a list of regex pieces. -/
def seqN : List RE → RE
  | [] => RE.eps
  | [x] => x
  | x :: xs => RE.seq x (seqN xs)

/-- Ordered alternation of a list of branches. -/
def altN : List RE → RE
  | [] => RE.cls (fun _ => false)
  | [x] => x
  | x :: xs => RE.alt x (altN xs)

/-- Case-insensitive literal (`re.IGNORECASE`). -/
def litCI (s : String) : RE :=
  seqN ((str s).map (fun c => RE.cls (fun x => ciEqCh x c)))

def chCI (c : Char) : RE := RE.cls (fun x => ciEqCh x c)

/-- Greedy `?`. -/
def opt (r : RE) : RE := RE.alt r RE.eps

def alphaB (c : Char) : Bool := c.isAlpha

def digitB (c : Char) : Bool := c.isDigit

/-! ## The `ner.py` patterns, hand-compiled (all with `re.IGNORECASE`,
so `[A-Z]` and `[a-z]` both match any ASCII letter). -/

/-- `\b([A-Z][a-z]+(?:in|ol|pril|statin|mycin|cillin))\s+\d+\s*mg\b` -/
def med1RE : RE := seqN [RE.wordB,
  RE.grp 1 (seqN [RE.cls alphaB, RE.rep alphaB 1 none true,
    altN [litCI "in", litCI "ol", litCI "pril", litCI "statin", litCI "mycin",
      litCI "cillin"]]),
  RE.rep wsB 1 none true, RE.rep digitB 1 none true, RE.rep wsB 0 none true,
  litCI "mg", RE.wordB]

/-- `(?:take|taking|prescribed|on)\s+([A-Z][a-z]+)\b` -/
def med2RE : RE := seqN [
  altN [litCI "take", litCI "taking", litCI "prescribed", litCI "on"],
  RE.rep wsB 1 none true,
  RE.grp 1 (seqN [RE.cls alphaB, RE.rep alphaB 1 none true]), RE.wordB]

/-- `\b([A-Z][a-z]{3,})\s+\d+(?:\.\d+)?\s*(?:mg|mcg|g|ml|units?)\b` -/
def med3RE : RE := seqN [RE.wordB,
  RE.grp 1 (seqN [RE.cls alphaB, RE.rep alphaB 3 none true]),
  RE.rep wsB 1 none true, RE.rep digitB 1 none true,
  opt (seqN [RE.cls (fun c => c = '.'), RE.rep digitB 1 none true]),
  RE.rep wsB 0 none true,
  altN [litCI "mg", litCI "mcg", litCI "g", litCI "ml",
    RE.seq (litCI "unit") (opt (chCI 's'))],
  RE.wordB]

/-- `\b([A-Z][a-z]+(?:itis|osis|emia|pathy|trophy|plasia|galy|oma|cardia|pnea))\b` -/
def cond1RE : RE := seqN [RE.wordB,
  RE.grp 1 (seqN [RE.cls alphaB, RE.rep alphaB 1 none true,
    altN [litCI "itis", litCI "osis", litCI "emia", litCI "pathy", litCI "trophy",
      litCI "plasia", litCI "galy", litCI "oma", litCI "cardia", litCI "pnea"]]),
  RE.wordB]

/-- `\b([A-Z][a-z]+\s+(?:disease|syndrome|disorder|condition))\b` -/
def cond2RE : RE := seqN [RE.wordB,
  RE.grp 1 (seqN [RE.cls alphaB, RE.rep alphaB 1 none true, RE.rep wsB 1 none true,
    altN [litCI "disease", litCI "syndrome", litCI "disorder", litCI "condition"]]),
  RE.wordB]

/-- `\b(Type\s+\d+\s+diabetes(?:\s+mellitus)?)\b` -/
def cond3RE : RE := seqN [RE.wordB,
  RE.grp 1 (seqN [litCI "Type", RE.rep wsB 1 none true, RE.rep digitB 1 none true,
    RE.rep wsB 1 none true, litCI "diabetes",
    opt (RE.seq (RE.rep wsB 1 none true) (litCI "mellitus"))]),
  RE.wordB]

/-- `(?:bp|blood pressure|b\.p\.?)\s*:?\s*(\d{2,3})/(\d{2,3})` -/
def bpRE : RE := seqN [
  altN [litCI "bp", litCI "blood pressure",
    RE.seq (litCI "b.p") (opt (RE.cls (fun c => c = '.')))],
  RE.rep wsB 0 none true, opt (RE.cls (fun c => c = ':')), RE.rep wsB 0 none true,
  RE.grp 1 (RE.rep digitB 2 (some 3) true), RE.cls (fun c => c = '/'),
  RE.grp 2 (RE.rep digitB 2 (some 3) true)]

/-- `(?:hr|heart rate|pulse)\s*:?\s*(\d{2,3})\s*(?:bpm|beats)` -/
def hrRE : RE := seqN [
  altN [litCI "hr", litCI "heart rate", litCI "pulse"],
  RE.rep wsB 0 none true, opt (RE.cls (fun c => c = ':')), RE.rep wsB 0 none true,
  RE.grp 1 (RE.rep digitB 2 (some 3) true), RE.rep wsB 0 none true,
  altN [litCI "bpm", litCI "beats"]]

/-- `(?:temp|temperature|t)\s*:?\s*(\d{2,3}(?:\.\d)?)\s*(?:°f|f|fahrenheit|°c|c|celsius)` -/
def tempRE : RE := seqN [
  altN [litCI "temp", litCI "temperature", litCI "t"],
  RE.rep wsB 0 none true, opt (RE.cls (fun c => c = ':')), RE.rep wsB 0 none true,
  RE.grp 1 (RE.seq (RE.rep digitB 2 (some 3) true)
    (opt (RE.seq (RE.cls (fun c => c = '.')) (RE.cls digitB)))),
  RE.rep wsB 0 none true,
  altN [litCI "°f", litCI "f", litCI "fahrenheit", litCI "°c", litCI "c", litCI "celsius"]]

/-- `(?:rr|respiratory rate|resp)\s*:?\s*(\d{1,2})` -/
def rrRE : RE := seqN [
  altN [litCI "rr", litCI "respiratory rate", litCI "resp"],
  RE.rep wsB 0 none true, opt (RE.cls (fun c => c = ':')), RE.rep wsB 0 none true,
  RE.grp 1 (RE.rep digitB 1 (some 2) true)]

/-- `(?:o2 sat|oxygen saturation|spo2|sat)\s*:?\s*(\d{2,3})%?` -/
def o2RE : RE := seqN [
  altN [litCI "o2 sat", litCI "oxygen saturation", litCI "spo2", litCI "sat"],
  RE.rep wsB 0 none true, opt (RE.cls (fun c => c = ':')), RE.rep wsB 0 none true,
  RE.grp 1 (RE.rep digitB 2 (some 3) true), opt (RE.cls (fun c => c = '%'))]

/-- `(?:weight|wt)\s*:?\s*(\d{1,3}(?:\.\d)?)\s*(?:lbs|kg|pounds)` -/
def weightRE : RE := seqN [
  altN [litCI "weight", litCI "wt"],
  RE.rep wsB 0 none true, opt (RE.cls (fun c => c = ':')), RE.rep wsB 0 none true,
  RE.grp 1 (RE.seq (RE.rep digitB 1 (some 3) true)
    (opt (RE.seq (RE.cls (fun c => c = '.')) (RE.cls digitB)))),
  RE.rep wsB 0 none true, altN [litCI "lbs", litCI "kg", litCI "pounds"]]

/-- `(?:height|ht)\s*:?\s*(\d{1,2})'?\s*(\d{1,2})?\"?|(\d{1,3})\s*(?:cm|inches)` -/
def heightRE : RE := RE.alt
  (seqN [altN [litCI "height", litCI "ht"],
    RE.rep wsB 0 none true, opt (RE.cls (fun c => c = ':')), RE.rep wsB 0 none true,
    RE.grp 1 (RE.rep digitB 1 (some 2) true),
    opt (RE.cls (fun c => c = '\'')), RE.rep wsB 0 none true,
    opt (RE.grp 2 (RE.rep digitB 1 (some 2) true)),
    opt (RE.cls (fun c => c = '"'))])
  (seqN [RE.grp 3 (RE.rep digitB 1 (some 3) true),
    RE.rep wsB 0 none true, altN [litCI "cm", litCI "inches"]])

/-- Lookahead `(?=\n[A-Z][^:]*:|$)` (with `re.IGNORECASE`). -/
def sectionLookA : RE := RE.look (RE.alt
  (seqN [RE.cls (fun c => c = '\n'), RE.cls alphaB,
    RE.rep (fun c => !(c = ':')) 0 none true, RE.cls (fun c => c = ':')])
  RE.eos)

/-- `(?:medications?|meds|current medications?):\s*(.*?)(?=\n[A-Z][^:]*:|$)`
(`re.IGNORECASE | re.DOTALL`). -/
def medSectionRE : RE := seqN [
  altN [RE.seq (litCI "medication") (opt (chCI 's')), litCI "meds",
    RE.seq (litCI "current medication") (opt (chCI 's'))],
  RE.cls (fun c => c = ':'), RE.rep wsB 0 none true,
  RE.grp 1 (RE.rep (fun _ => true) 0 none false),
  sectionLookA]

/-- `(?:past medical history|pmh|medical history):\s*(.*?)(?=\n[A-Z][^:]*:|$)` -/
def pmhSectionRE : RE := seqN [
  altN [litCI "past medical history", litCI "pmh", litCI "medical history"],
  RE.cls (fun c => c = ':'), RE.rep wsB 0 none true,
  RE.grp 1 (RE.rep (fun _ => true) 0 none false),
  sectionLookA]

/-- Lookahead `(?=\n(?:[A-Z][^:]*:|$))` used by `extract_by_sections`. -/
def bySectionLookA : RE := RE.look (RE.seq (RE.cls (fun c => c = '\n'))
  (RE.alt (seqN [RE.cls alphaB, RE.rep (fun c => !(c = ':')) 0 none true,
    RE.cls (fun c => c = ':')]) RE.eos))

/-- `(?:<labels>):\s*(.*?)(?=\n(?:[A-Z][^:]*:|$))` -/
def bySectionRE (lab : RE) : RE := seqN [lab, RE.cls (fun c => c = ':'),
  RE.rep wsB 0 none true, RE.grp 1 (RE.rep (fun _ => true) 0 none false),
  bySectionLookA]

/-! ## Extraction functions of `app/nlp/ner.py` -/

/-- `extract_medications_by_patterns`. -/
def extract_medications_by_patterns (text : Str) : List Str :=
  (([med1RE, med2RE, med3RE]).map (fun p =>
    (finditer p text).filterMap (fun m =>
      match grpGet m.caps 1 with
      | none => none
      | some g =>
        let med := pyStrip g
        if med.length > 3 ∧ pyLower med ∉
            [str "take", str "taking", str "with", str "current", str "continue"] then
          some med
        else none))).flatten

/-- `extract_conditions_by_patterns`. -/
def extract_conditions_by_patterns (text : Str) : List Str :=
  (([cond1RE, cond2RE, cond3RE]).map (fun p =>
    (finditer p text).filterMap (fun m =>
      match grpGet m.caps 1 with
      | none => none
      | some g =>
        let condition := pyStrip g
        if condition.length > 4 then some condition else none))).flatten

/-- A vitals record is the association list of its dict fields. -/
abbrev VitalRecord := List (Str × Str)

def vitalsPatterns : List (Str × RE) :=
  [ (str "blood_pressure", bpRE), (str "heart_rate", hrRE),
    (str "temperature", tempRE), (str "respiratory_rate", rrRE),
    (str "oxygen_saturation", o2RE), (str "weight", weightRE),
    (str "height", heightRE) ]

/-- Python formats a missing group as the string `None` inside f-strings. -/
def pyFmtG (o : Option Str) : Str :=
  match o with
  | some g => g
  | none => str "None"

/-- Build one record of `extract_vitals_with_values` from a match. -/
def mkVital (vtype : Str) (m : MatchM) : VitalRecord :=
  if vtype = str "blood_pressure" then
    [(str "type", str "blood_pressure"),
     (str "systolic", pyFmtG (grpGet m.caps 1)),
     (str "diastolic", pyFmtG (grpGet m.caps 2)),
     (str "text", m.matched)]
  else if vtype = str "height" then
    -- `len(match.groups()) > 2` always holds: the height pattern has 3 groups
    [(str "type", str "height"),
     (str "value", match grpGet m.caps 3 with
       | some g3 => if g3 ≠ [] then g3
           else pyFmtG (grpGet m.caps 1) ++ ['\''] ++ pyFmtG (grpGet m.caps 2) ++ ['"']
       | none => pyFmtG (grpGet m.caps 1) ++ ['\''] ++ pyFmtG (grpGet m.caps 2) ++ ['"']),
     (str "text", m.matched)]
  else
    [(str "type", vtype), (str "value", pyFmtG (grpGet m.caps 1)), (str "text", m.matched)]

/-- `extract_vitals_with_values`. -/
def extract_vitals_with_values (text : Str) : List VitalRecord :=
  ((vitalsPatterns).map (fun pr =>
    (finditer pr.2 text).map (fun m => mkVital pr.1 m))).flatten

/-- `re.sub(r'^[\d\.\-\*\+]\s*', '', line)`. -/
def stripLeadMarker (line : Str) : Str :=
  match line with
  | [] => []
  | c :: t =>
    if c.isDigit || c = '.' || c = '-' || c = '*' || c = '+' then t.dropWhile wsB
    else c :: t

/-- The per-line extraction applied inside each matched section. -/
def sectionLines (section_text : Str) : List Str :=
  (splitNl section_text).filterMap (fun line0 =>
    let line := pyStrip line0
    if line ≠ [] ∧ ¬ (startsWithStr (str "-") line = true) ∧ line.length > 3 then
      let line2 := stripLeadMarker line
      if line2 ≠ [] then some line2 else none
    else none)

/-- The result dict of `extract_from_sections`. -/
structure SectionEnts where
  medications : List Str
  past_medical_history : List Str

/-- `extract_from_sections`. -/
def extract_from_sections (text : Str) : SectionEnts :=
  let meds := ((finditer medSectionRE text).map (fun m =>
    let section_text := pyFmtG (grpGet m.caps 1)
    extract_medications_by_patterns section_text ++ sectionLines section_text)).flatten
  let pmh := ((finditer pmhSectionRE text).map (fun m =>
    let section_text := pyFmtG (grpGet m.caps 1)
    extract_conditions_by_patterns section_text ++ sectionLines section_text)).flatten
  ⟨meds, pmh⟩

def bySectionPatterns : List (Str × RE) :=
  [ (str "chief_complaint", bySectionRE (altN [litCI "chief complaint", litCI "cc"])),
    (str "history_of_present_illness",
      bySectionRE (altN [litCI "history of present illness", litCI "hpi"])),
    (str "review_of_systems", bySectionRE (altN [litCI "review of systems", litCI "ros"])),
    (str "physical_exam",
      bySectionRE (altN [litCI "physical exam", litCI "pe", litCI "examination"])),
    (str "assessment_and_plan",
      bySectionRE (altN [litCI "assessment and plan", litCI "a&p", litCI "plan"])) ]

/-- `extract_by_sections`. -/
def extract_by_sections (text : Str) : List (Str × List Str) :=
  (bySectionPatterns).map (fun pr =>
    (pr.1, (finditer pr.2 text).filterMap (fun m =>
      let content := pyStrip (pyFmtG (grpGet m.caps 1))
      if content ≠ [] then some content else none)))

/-! ## `extract_entities` of `app/nlp/ner.py` -/

/-- A spaCy entity produced by the NLP pipeline (oracle).  `negated` is
`none` when the medspaCy `is_negated` attribute is absent. -/
structure NlpEnt where
  text : Str
  label : Str
  start_char : Nat
  end_char : Nat
  negated : Option Bool

/-- An entry of `all_entities`: `{"text", "label", "start", "end"}`. -/
structure AllEnt where
  text : Str
  label : Str
  start_char : Nat
  end_char : Nat

def entToAll (e : NlpEnt) : AllEnt := ⟨e.text, e.label, e.start_char, e.end_char⟩

/-- The heterogeneous values of the entities dict. -/
inductive EntVal where
  | strs : List Str → EntVal
  | vits : List VitalRecord → EntVal
  | ents : List AllEnt → EntVal

/-- The Python dict, as an insertion-ordered association list. -/
abbrev PyDict := List (Str × EntVal)

def dget : PyDict → Str → Option EntVal
  | [], _ => none
  | (k', v) :: t, k => if k' = k then some v else dget t k

/-- `d[k] = v`: update in place, or append when the key is new. -/
def dset : PyDict → Str → EntVal → PyDict
  | [], k, v => [(k, v)]
  | (k', v') :: t, k, v =>
    if k' = k then (k', v) :: t else (k', v') :: dset t k v

/-- Append `l` to a string-list value. -/
def extendVal (v : EntVal) (l : List Str) : EntVal :=
  match v with
  | .strs l0 => .strs (l0 ++ l)
  | v => v

/-- `d[k].extend(l)` on a string-list entry. -/
def dExtendStrs : PyDict → Str → List Str → PyDict
  | [], _, _ => []
  | (k', v) :: t, k, l =>
    (if k' = k then (k', extendVal v l) else (k', v)) :: dExtendStrs t k l

/-- Append `e` to an entity-list value. -/
def appendEntVal (v : EntVal) (e : AllEnt) : EntVal :=
  match v with
  | .ents l0 => .ents (l0 ++ [e])
  | v => v

/-- `d[k].append(e)` on the `all_entities` entry. -/
def dAppendEnt : PyDict → Str → AllEnt → PyDict
  | [], _, _ => []
  | (k', v) :: t, k, e =>
    (if k' = k then (k', appendEntVal v e) else (k', v)) :: dAppendEnt t k e

def hasKey (d : PyDict) (k : Str) : Bool := (dget d k).isSome

/-- The dict initialised at the top of `extract_entities`. -/
def entities0 : PyDict :=
  [ (str "past_medical_history", .strs []),
    (str "medications", .strs []),
    (str "vitals", .strs []),
    (str "symptoms", .strs []),
    (str "plan", .strs []),
    (str "vitals_with_values", .vits []),
    (str "all_entities", .ents []) ]

/-- The label-based categorisation inside the `for ent in doc.ents`
loop. -/
def applyEntLabel (d : PyDict) (e : NlpEnt) : PyDict :=
  if e.label = str "CHEMICAL" ∨ e.label = str "DRUG" then
    dExtendStrs d (str "medications") [e.text]
  else if e.label = str "DISEASE" ∨ e.label = str "DISORDER" ∨
      e.label = str "INJURY_OR_POISONING" then
    dExtendStrs d (str "past_medical_history") [e.text]
  else if e.label = str "SIGN_OR_SYMPTOM" then
    dExtendStrs d (str "symptoms") [e.text]
  else if e.label = str "VITALS" then
    dExtendStrs d (str "vitals") [e.text]
  else if e.label = str "SYMPTOM" ∧ e.negated = some false then
    dExtendStrs d (str "symptoms") [e.text]
  else d

/-- The body of the `for ent in doc.ents` loop: record the entity in
`all_entities`, then categorise by label. -/
def applyEnt (d : PyDict) (e : NlpEnt) : PyDict :=
  applyEntLabel (dAppendEnt d (str "all_entities") (entToAll e)) e

/-- The stop-word list of the cleanup pass. -/
def stopWords : List Str :=
  [str "the", str "and", str "for", str "with", str "mg", str "ml",
   str "daily", str "twice", str "current", str "pain", str "obtain"]

/-- The filter of the cleanup pass (evaluated on the pre-strip item). -/
def keepItem (item : Str) : Bool :=
  decide ((pyStrip item).length > 2) &&
  !(decide (pyStrip (pyLower item) ∈ stopWords)) &&
  !(startsWithStr (str "-") (pyStrip item)) &&
  !(startsWithStr (str "•") (pyStrip item)) &&
  !(pyIsDigit (pyStrip item))

/-- The cleanup applied to every string-list entry: deduplicate keeping
first occurrences, filter, strip, drop empties. -/
def cleanStrs (l : List Str) : List Str :=
  let d1 := nubStr l
  let d2 := (d1.filter keepItem).map pyStrip
  d2.filter (fun item => pyStrip item ≠ [])

def excludedKeys : List Str := [str "vitals_with_values", str "all_entities"]

def cleanVal : EntVal → EntVal
  | .strs l => .strs (cleanStrs l)
  | v => v

/-- The `for key in entities` cleanup loop. -/
def cleanupDict : PyDict → PyDict
  | [] => []
  | (k, v) :: t =>
    (if k ∈ excludedKeys then (k, v) else (k, cleanVal v)) :: cleanupDict t

/-- Lines 199–206 of `ner.py`: extend `medications` and
`past_medical_history` with the regex passes and set
`vitals_with_values`. -/
def afterPatterns (d1 : PyDict) (text : Str) : PyDict :=
  dset (dExtendStrs (dExtendStrs d1 (str "medications")
      (extract_medications_by_patterns text))
      (str "past_medical_history") (extract_conditions_by_patterns text))
    (str "vitals_with_values") (.vits (extract_vitals_with_values text))

/-- The `if key in entities` merge of the section-based medications. -/
def mergeSecMeds (d : PyDict) (text : Str) : PyDict :=
  if hasKey d (str "medications") then
    dExtendStrs d (str "medications") (extract_from_sections text).medications
  else d

/-- The `if key in entities` merge of the section-based PMH. -/
def mergeSecPmh (d : PyDict) (text : Str) : PyDict :=
  if hasKey d (str "past_medical_history") then
    dExtendStrs d (str "past_medical_history")
      (extract_from_sections text).past_medical_history
  else d

/-- `if sections:` then add each section key not already present. -/
def addSections (d : PyDict) (text : Str) : PyDict :=
  if (extract_by_sections text).isEmpty then d
  else (extract_by_sections text).foldl
    (fun d pr => if hasKey d pr.1 then d else dset d pr.1 (.strs pr.2)) d

/-- The pattern-based passes of `extract_entities` (run regardless of
the NLP pipeline outcome), applied to the dict `d1` produced by the
`try` block. -/
def patternPasses (d1 : PyDict) (text : Str) : PyDict :=
  addSections (mergeSecPmh (mergeSecMeds (afterPatterns d1 text) text) text) text

/-- `extract_entities` up to (but not including) the cleanup loop.
`nlp` is the spaCy/medspaCy pipeline oracle; an exception from it is
caught (`except Exception`) and extraction continues pattern-only. -/
def rawEntities (nlp : Str → Except Str (List NlpEnt)) (text : Str) : PyDict :=
  patternPasses (match nlp text with
    | .ok es => es.foldl applyEnt entities0
    | .error _ => entities0) text

/-- `extract_entities` from `app/nlp/ner.py`. -/
def extract_entities (nlp : Str → Except Str (List NlpEnt)) (text : Str) : PyDict :=
  cleanupDict (rawEntities nlp text)

/-! ## `extract_entities` of `app/extractor.py` (sentence classification) -/

/-- `label_map = {0: 'symptoms', 1: 'medications', 2: 'diagnosis', 3: 'plan'}`. -/
def label_map : Fin 4 → Str
  | 0 => str "symptoms"
  | 1 => str "medications"
  | 2 => str "diagnosis"
  | 3 => str "plan"

/-- `classify_sentence`, with the ClinicalBERT argmax abstracted as
`predict`. -/
def classify_sentence (predict : Str → Fin 4) (sentence : Str) : Str :=
  label_map (predict sentence)

def appendStrAssoc (d : List (Str × List Str)) (k : Str) (v : Str) :
    List (Str × List Str) :=
  d.map (fun kv => if kv.1 = k then (kv.1, kv.2 ++ [v]) else kv)

/-- `extract_entities` from `app/extractor.py`, before the final
deduplication: classify each sentence and append it to its category. -/
def extract_entities_cls_raw (predict : Str → Fin 4) (text : Str) :
    List (Str × List Str) :=
  (((reSplitGo none false (pyStrip text)).map pyStrip).filter
    (fun s => s ≠ [])).foldl
    (fun d sent => appendStrAssoc d (classify_sentence predict sent) sent)
    [(str "symptoms", []), (str "medications", []), (str "diagnosis", []),
     (str "plan", [])]

/-- `extract_entities` from `app/extractor.py`: the classified sentence
lists, deduplicated keeping first occurrences. -/
def extract_entities_cls (predict : Str → Fin 4) (text : Str) :
    List (Str × List Str) :=
  (extract_entities_cls_raw predict text).map (fun kv => (kv.1, nubStr kv.2))

/-! ## Routes (`app/routes.py`) -/

/-- ASCII upper-casing of a single character. -/
def upCh : Char → Char
  | 'a' => 'A' | 'b' => 'B' | 'c' => 'C' | 'd' => 'D' | 'e' => 'E'
  | 'f' => 'F' | 'g' => 'G' | 'h' => 'H' | 'i' => 'I' | 'j' => 'J'
  | 'k' => 'K' | 'l' => 'L' | 'm' => 'M' | 'n' => 'N' | 'o' => 'O'
  | 'p' => 'P' | 'q' => 'Q' | 'r' => 'R' | 's' => 'S' | 't' => 'T'
  | 'u' => 'U' | 'v' => 'V' | 'w' => 'W' | 'x' => 'X' | 'y' => 'Y'
  | 'z' => 'Z'
  | c => c

def pyTitleGo : Bool → Str → Str
  | _, [] => []
  | prevAlpha, c :: t =>
    (if c.isAlpha then (if prevAlpha then lowCh c else upCh c) else c) ::
      pyTitleGo c.isAlpha t

/-- Python `str.title()` (ASCII model). -/
def pyTitle (s : Str) : Str := pyTitleGo false s

/-- The `for line in lines` state machine of `clean_form_data`. -/
def cleanFormGo : Bool → List Str → List Str
  | _, [] => []
  | skip, line :: rest =>
    if startsWithStr (str "------gecko") line ||
       startsWithStr (str "Content-Disposition") line ||
       startsWithStr (str "Content-Type") line then
      cleanFormGo true rest
    else if skip && (pyStrip line).isEmpty then
      cleanFormGo false rest
    else if !skip && !(pyStrip line).isEmpty then
      pyStrip line :: cleanFormGo skip rest
    else
      cleanFormGo skip rest

/-- `clean_form_data` from `app/routes.py`. -/
def clean_form_data (raw : Str) : Str :=
  joinSep (str "\n") (cleanFormGo false (splitNl raw))

/-- The request body of `POST /diagnose`. -/
structure DiagnosisRequest where
  symptoms : Str
  conditions : Str
  medications : Str

/-- Values appearing in a template rendering context. -/
inductive CtxVal where
  | vstr : Str → CtxVal
  | vdict : PyDict → CtxVal
  | vdiag : List (Str × Str) → CtxVal
  | vreq : CtxVal

/-- An HTTP response of the route layer: either a rendered HTML template
with its context, or a JSON object. -/
inductive Response where
  | template : Str → List (Str × CtxVal) → Response
  | json : List (Str × Str) → Response

/-- `structured[k]` for a string-list entry (the handler relies on the
key being present with this shape; see the shape theorem for C10). -/
def dgetStrs (d : PyDict) (k : Str) : List Str :=
  match dget d k with
  | some (.strs l) => l
  | _ => []

def dgetVits (d : PyDict) (k : Str) : List VitalRecord :=
  match dget d k with
  | some (.vits l) => l
  | _ => []

/-- `vital[k]` (the records always carry the accessed fields; C10). -/
def vrGet (v : VitalRecord) (k : Str) : Str :=
  match lookupStr v k with
  | some s => s
  | none => []

/-- The per-record formatting in the `/summarize` handler. -/
def fmtVital (v : VitalRecord) : Str :=
  if vrGet v (str "type") = str "blood_pressure" then
    str "BP: " ++ vrGet v (str "systolic") ++ str "/" ++ vrGet v (str "diastolic")
  else
    pyTitle ((vrGet v (str "type")).map (fun c => if c = '_' then ' ' else c)) ++
      str ": " ++ vrGet v (str "value")

/-- `summarize_endpoint` (`POST /summarize`): renders `result.html` with
the assembled context.  `sim`, `nlp`, `callApi` are the model/API
oracles threaded through to the embedded components. -/
def summarize_endpoint (sim : Str → Str → ℚ) (nlp : Str → Except Str (List NlpEnt))
    (callApi : Str → Except Str Str) (text : Str) : Response :=
  let cleaned_text := clean_form_data text
  let summary := summarize_note sim cleaned_text
  let structured := extract_entities nlp cleaned_text
  let history := if dgetStrs structured (str "past_medical_history") ≠ [] then
      joinSep (str ", ") (dgetStrs structured (str "past_medical_history"))
    else str "No past medical history found"
  let vitals := if dgetVits structured (str "vitals_with_values") ≠ [] then
      joinSep (str ", ") ((dgetVits structured (str "vitals_with_values")).map fmtVital)
    else str "No vitals found"
  let medications_str := if dgetStrs structured (str "medications") ≠ [] then
      joinSep (str ", ") (dgetStrs structured (str "medications"))
    else str "No medications"
  let symptoms_str := if dgetStrs structured (str "symptoms") ≠ [] then
      joinSep (str ", ") (dgetStrs structured (str "symptoms"))
    else str "No symptoms"
  let conditions_str := if dgetStrs structured (str "past_medical_history") ≠ [] then
      joinSep (str ", ") (dgetStrs structured (str "past_medical_history"))
    else str "No conditions"
  let diagnosis_response :=
    suggest_diagnosis callApi symptoms_str conditions_str medications_str
  let parsed_diagnosis := parse_diagnosis_response diagnosis_response
  .template (str "result.html")
    [ (str "request", .vreq),
      (str "text", .vstr cleaned_text),
      (str "history", .vstr history),
      (str "summary", .vstr summary),
      (str "vitals", .vstr vitals),
      (str "structured", .vdict structured),
      (str "diagnosis", .vdiag parsed_diagnosis) ]

/-- `diagnose_endpoint` (`POST /diagnose`): `{"diagnosis": …}`. -/
def diagnose_endpoint (callApi : Str → Except Str Str) (req : DiagnosisRequest) :
    Response :=
  .json [(str "diagnosis",
    suggest_diagnosis callApi req.symptoms req.conditions req.medications)]

/-- Context keys of a response. -/
def respCtxKeys (r : Response) : List Str :=
  match r with
  | .template _ ctx => ctx.map Prod.fst
  | .json kvs => kvs.map Prod.fst

def isTemplate : Response → Bool
  | .template _ _ => true
  | .json _ => false

def lookupCtx : List (Str × CtxVal) → Str → Option CtxVal
  | [], _ => none
  | (k', v) :: t, k => if k' = k then some v else lookupCtx t k

/-! ## Keys of the entities dict -/

/-- The key list of a dict, in insertion order. -/
def keysOf : PyDict → List Str
  | [] => []
  | (k, _) :: t => k :: keysOf t

/-! ## Shape of the vitals records and the cleanup's key behaviour -/

/-- Whether a vitals record has field `k`. -/
def vrHas : VitalRecord → Str → Bool
  | [], _ => false
  | (k', _) :: t, k => decide (k' = k) || vrHas t k

/-! ## Deduplication keeps first occurrences (C6) -/

/-- Index of the first occurrence of `x` in a list. -/
def firstIdx (x : Str) : List Str → Nat
  | [] => 0
  | y :: t => if y = x then 0 else firstIdx x t + 1

/-- The extraction regex passes only emit `.strip()`-ed strings; this
invariant lets the cleanup's final `strip` map act as the identity. -/
def strippedVal : EntVal → Prop
  | .strs l => ∀ x ∈ l, pyStrip x = x
  | _ => True

def strippedDict (d : PyDict) : Prop := ∀ kv ∈ d, strippedVal kv.2

/-- Association lookup in the classifier-based entities dict of
`app/extractor.py`. -/
def lookupStrs : List (Str × List Str) → Str → Option (List Str)
  | [], _ => none
  | (k', v) :: t, k => if k' = k then some v else lookupStrs t k

/-! ## Theorems -/
theorem dropWhileLenLe (p : Char → Bool) : ∀ l : Str, (l.dropWhile p).length ≤ l.length := by
  intro l
  induction l with
  | nil => simp [List.dropWhile]
  | cons c t ih =>
    rw [List.dropWhile_cons]
    split
    · exact Nat.le_succ_of_le ih
    · exact Nat.le_refl _

theorem adjOK_tail {p : Char → Char → Bool} {c : Char} {t : Str}
    (h : adjOK p (c :: t) = true) : adjOK p t = true := by
  cases t with
  | nil => rfl
  | cons d t' =>
    rw [adjOK] at h
    simp only [Bool.and_eq_true] at h
    exact h.2

theorem lastNW_cons {c : Char} {p : Str} (hp : p ≠ []) : lastNW (c :: p) = lastNW p := by
  unfold lastNW headNW
  rw [List.reverse_cons]
  cases hq : p.reverse with
  | nil => exact absurd (by simpa using hq) hp
  | cons q qs => simp [hq]

theorem lastNW_singleton (c : Char) : lastNW [c] = !wsB c := rfl

theorem lastNW_cons_of_ne {c : Char} {t : Str} (ht : t ≠ []) : lastNW (c :: t) = lastNW t :=
  lastNW_cons ht

theorem headNW_dropWhileWs : ∀ l : Str, headNW (l.dropWhile wsB) = true := by
  intro l
  induction l with
  | nil => rfl
  | cons c t ih =>
    rw [List.dropWhile_cons]
    split
    · exact ih
    · rename_i h
      simp only [headNW]
      simpa using h

theorem dropWhile_suffix_ex (p : Char → Bool) :
    ∀ l : Str, ∃ pre, l = pre ++ l.dropWhile p := by
  intro l
  induction l with
  | nil => exact ⟨[], rfl⟩
  | cons c t ih =>
    rw [List.dropWhile_cons]
    split
    · obtain ⟨pre, hpre⟩ := ih
      exact ⟨c :: pre, by rw [List.cons_append, ← hpre]⟩
    · exact ⟨[], rfl⟩

theorem headNW_append_left (a b : Str) (ha : a ≠ []) : headNW (a ++ b) = headNW a := by
  cases a with
  | nil => exact absurd rfl ha
  | cons c t => rfl

theorem headNW_pyStrip (x : Str) : headNW (pyStrip x) = true := by
  have hy : headNW (pyStripL x) = true := headNW_dropWhileWs x
  show headNW (pyStripR (pyStripL x)) = true
  set y := pyStripL x with hy'
  obtain ⟨pre, hpre⟩ := dropWhile_suffix_ex wsB y.reverse
  have hy2 : y = (y.reverse.dropWhile wsB).reverse ++ pre.reverse := by
    calc y = y.reverse.reverse := (List.reverse_reverse y).symm
    _ = (pre ++ y.reverse.dropWhile wsB).reverse := by rw [← hpre]
    _ = (y.reverse.dropWhile wsB).reverse ++ pre.reverse := by rw [List.reverse_append]
  show headNW ((y.reverse.dropWhile wsB).reverse) = true
  cases hw : (y.reverse.dropWhile wsB).reverse with
  | nil => rfl
  | cons c t =>
    have hne : (y.reverse.dropWhile wsB).reverse ≠ [] := by rw [hw]; simp
    have heq2 : headNW y = headNW ((y.reverse.dropWhile wsB).reverse) := by
      conv_lhs => rw [hy2]
      exact headNW_append_left _ _ hne
    rw [hw] at heq2
    rw [← heq2]
    exact hy

theorem lastNW_pyStrip (x : Str) : lastNW (pyStrip x) = true := by
  show headNW (pyStripR (pyStripL x)).reverse = true
  unfold pyStripR
  rw [List.reverse_reverse]
  exact headNW_dropWhileWs _

theorem pyStripL_eq_self {s : Str} (h : headNW s = true) : pyStripL s = s := by
  cases s with
  | nil => rfl
  | cons c t =>
    simp only [headNW, Bool.not_eq_true'] at h
    unfold pyStripL
    rw [List.dropWhile_cons]
    simp [h]

theorem pyStrip_eq_self {s : Str} (h1 : headNW s = true) (h2 : lastNW s = true) :
    pyStrip s = s := by
  unfold pyStrip
  rw [pyStripL_eq_self h1]
  unfold pyStripR
  have : s.reverse.dropWhile wsB = s.reverse := by
    have := pyStripL_eq_self (s := s.reverse) h2
    exact this
  rw [this, List.reverse_reverse]

theorem pyStrip_eq_self_of_good {p : Str} (h : GoodPart p) : pyStrip p = p :=
  pyStrip_eq_self h.2.1 h.2.2

theorem reSplitGo_nil (prev : Option Char) (skip : Bool) : reSplitGo prev skip [] = [[]] := rfl

theorem reSplitGo_false_cons (prev : Option Char) (c : Char) (t : Str) :
    reSplitGo prev false (c :: t) =
      if c = ' ' && (match prev with | some p => isEnder p | none => false) then
        [] :: reSplitGo (some ' ') true t
      else
        match reSplitGo (some c) false t with
        | [] => [[c]]
        | p :: ps => (c :: p) :: ps := by
  simp [reSplitGo]

theorem reSplitGo_skip_space (prev : Option Char) (t : Str) :
    reSplitGo prev true (' ' :: t) = reSplitGo (some ' ') true t := by
  simp [reSplitGo]

theorem reSplitGo_nospace (prev : Option Char) (skip : Bool) (c : Char) (t : Str)
    (hc : ¬ (c = ' ')) :
    reSplitGo prev skip (c :: t) =
      match reSplitGo (some c) false t with
      | [] => [[c]]
      | p :: ps => (c :: p) :: ps := by
  have hd : (decide (c = ' ')) = false := decide_eq_false hc
  cases skip <;> simp [reSplitGo, hd]

theorem reSplitGo_skip_eq_false (p1 p2 : Option Char) (c : Char) (t : Str)
    (hc : ¬ (c = ' ')) :
    reSplitGo p1 true (c :: t) = reSplitGo p2 false (c :: t) := by
  rw [reSplitGo_nospace _ _ _ _ hc, reSplitGo_nospace _ _ _ _ hc]

theorem reSplitGo_ne_nil : ∀ (s : Str) (prev : Option Char) (skip : Bool),
    reSplitGo prev skip s ≠ [] := by
  intro s
  induction s with
  | nil => intro prev skip; simp [reSplitGo]
  | cons c t ih =>
    intro prev skip
    by_cases hc : c = ' '
    · subst hc
      cases skip
      · rw [reSplitGo_false_cons]
        split
        · simp
        · split <;> simp
      · rw [reSplitGo_skip_space]
        exact ih _ _
    · rw [reSplitGo_nospace _ _ _ _ hc]
      split <;> simp

theorem joinSep_cons_head (sep : Str) (c : Char) (p : Str) (ps : List Str) :
    joinSep sep ((c :: p) :: ps) = c :: joinSep sep (p :: ps) := by
  cases ps <;> rfl

/-- Reconstruction: joining the split parts with single spaces gives back
the input, provided the input has no two adjacent whitespace characters. -/
theorem joinSep_reSplitGo : ∀ (n : Nat) (prev : Option Char) (s : Str), s.length ≤ n →
    noDoubleWs s = true → joinSep (str " ") (reSplitGo prev false s) = s := by
  intro n
  induction n with
  | zero =>
    intro prev s hlen _
    have hs : s = [] := List.length_eq_zero.mp (Nat.le_zero.mp hlen)
    subst hs
    rfl
  | succ n ih =>
    intro prev s hlen hD
    cases s with
    | nil => rfl
    | cons c t =>
      have hlt : t.length ≤ n := by
        simp only [List.length_cons] at hlen; omega
      rw [reSplitGo_false_cons]
      split
      · rename_i hcond
        simp only [Bool.and_eq_true, decide_eq_true_eq] at hcond
        have hc : c = ' ' := hcond.1
        cases t with
        | nil =>
          subst hc
          rfl
        | cons d t' =>
          have hd : ¬ (d = ' ') := by
            subst hc
            rw [noDoubleWs, adjOK] at hD
            simp only [Bool.and_eq_true] at hD
            intro hdeq; subst hdeq
            simp [wsB] at hD
          rw [reSplitGo_skip_eq_false _ (some ' ') _ _ hd]
          cases hrec : reSplitGo (some ' ') false (d :: t') with
          | nil => exact absurd hrec (reSplitGo_ne_nil _ _ _)
          | cons q qs =>
            have hj : joinSep (str " ") ([] :: q :: qs) = ' ' :: joinSep (str " ") (q :: qs) := rfl
            rw [hj, ← hrec, ih (some ' ') (d :: t') hlt (adjOK_tail hD), hc]
      · cases hrec : reSplitGo (some c) false t with
        | nil => exact absurd hrec (reSplitGo_ne_nil _ _ _)
        | cons p ps =>
          show joinSep (str " ") ((c :: p) :: ps) = c :: t
          rw [joinSep_cons_head, ← hrec, ih (some c) t hlt (adjOK_tail hD)]

/-- Structure of the parts produced by the sentence splitter on input with
no adjacent double whitespace: every part other than (possibly) the first
is good; the first is good as soon as the input starts with non-whitespace;
and an empty first part forces the input to start with whitespace. -/
theorem reSplit_parts_good : ∀ (n : Nat) (prev : Option Char) (s : Str), s.length ≤ n →
    noDoubleWs s = true → (s ≠ [] → lastNW s = true) →
    (∀ p ∈ (reSplitGo prev false s).tail, GoodPart p) ∧
    ((reSplitGo prev false s).headD [] ≠ [] → lastNW ((reSplitGo prev false s).headD []) = true) ∧
    (headNW s = true → s ≠ [] →
      ((reSplitGo prev false s).headD [] ≠ [] ∧ headNW ((reSplitGo prev false s).headD []) = true)) ∧
    ((reSplitGo prev false s).headD [] = [] → s ≠ [] → wsB (s.headD ' ') = true) := by
  intro n
  induction n with
  | zero =>
    intro prev s hlen _ _
    have hs : s = [] := List.length_eq_zero.mp (Nat.le_zero.mp hlen)
    subst hs
    rw [reSplitGo_nil]
    refine ⟨by simp, by simp, ?_, ?_⟩
    · intro _ h; exact absurd rfl h
    · intro _ h; exact absurd rfl h
  | succ n ih =>
    intro prev s hlen hD hlast
    cases s with
    | nil =>
      rw [reSplitGo_nil]
      refine ⟨by simp, by simp, ?_, ?_⟩
      · intro _ h; exact absurd rfl h
      · intro _ h; exact absurd rfl h
    | cons c t =>
      have hlt : t.length ≤ n := by
        simp only [List.length_cons] at hlen; omega
      rw [reSplitGo_false_cons]
      split
      · -- separator starts here: c = ' ' preceded by an ender
        rename_i hcond
        simp only [Bool.and_eq_true, decide_eq_true_eq] at hcond
        have hc : c = ' ' := hcond.1
        have hlast' := hlast (by simp)
        cases t with
        | nil =>
          exfalso
          subst hc
          rw [lastNW_singleton] at hlast'
          simp [wsB] at hlast'
        | cons d t' =>
          have hd : wsB d = false := by
            subst hc
            rw [noDoubleWs, adjOK] at hD
            simp only [Bool.and_eq_true] at hD
            have := hD.1
            simp only [Bool.not_eq_true', Bool.and_eq_false_iff] at this
            rcases this with h | h
            · exact absurd h (by simp [wsB])
            · exact h
          have hdsp : ¬ (d = ' ') := by
            intro hdeq; subst hdeq; simp [wsB] at hd
          rw [reSplitGo_skip_eq_false _ (some ' ') _ _ hdsp]
          have htlast : lastNW (d :: t') = true := by
            rw [← lastNW_cons_of_ne (c := c) (by simp)]
            exact hlast'
          obtain ⟨ih1, ih2, ih3, ih4⟩ :=
            ih (some ' ') (d :: t') hlt (adjOK_tail hD) (fun _ => htlast)
          have hall : ∀ p ∈ reSplitGo (some ' ') false (d :: t'), GoodPart p := by
            intro p hp
            cases hE : reSplitGo (some ' ') false (d :: t') with
            | nil => exact absurd hE (reSplitGo_ne_nil _ _ _)
            | cons q qs =>
              rw [hE] at hp ih1 ih2 ih3 ih4
              simp only [List.headD_cons, List.tail_cons] at ih1 ih2 ih3 ih4
              rcases List.mem_cons.mp hp with hq | hq
              · subst hq
                have hq3 := ih3 (by simp [headNW, hd]) (by simp)
                exact ⟨hq3.1, hq3.2, ih2 hq3.1⟩
              · exact ih1 p hq
          refine ⟨?_, ?_, ?_, ?_⟩
          · intro p hp
            simp only [List.tail_cons] at hp
            exact hall p hp
          · intro hne
            simp only [List.headD_cons] at hne
            exact absurd rfl hne
          · intro hhead _
            exfalso
            subst hc
            simp [headNW, wsB] at hhead
          · intro _ _
            subst hc
            simp [wsB]
      · -- no split at this position
        cases t with
        | nil =>
          rw [reSplitGo_nil]
          refine ⟨by simp, ?_, ?_, ?_⟩
          · intro _
            simp only [List.headD_cons]
            rw [lastNW_singleton]
            have := hlast (by simp)
            rw [lastNW_singleton] at this
            exact this
          · intro hhead _
            refine ⟨by simp, ?_⟩
            simp only [List.headD_cons]
            exact hhead
          · intro habs
            simp at habs
        | cons d t' =>
          cases hrec : reSplitGo (some c) false (d :: t') with
          | nil => exact absurd hrec (reSplitGo_ne_nil _ _ _)
          | cons p ps =>
            have htlast : lastNW (d :: t') = true := by
              rw [← lastNW_cons_of_ne (c := c) (by simp)]
              exact hlast (by simp)
            obtain ⟨ih1, ih2, ih3, ih4⟩ :=
              ih (some c) (d :: t') hlt (adjOK_tail hD) (fun _ => htlast)
            rw [hrec] at ih1 ih2 ih3 ih4
            simp only [List.headD_cons, List.tail_cons] at ih1 ih2 ih3 ih4
            have hcP : lastNW (c :: p) = true := by
              cases hp : p with
              | nil =>
                have hwd := ih4 (by rw [hp]) (by simp)
                simp only [List.headD_cons] at hwd
                rw [lastNW_singleton]
                rw [noDoubleWs, adjOK] at hD
                simp only [Bool.and_eq_true] at hD
                have h1 := hD.1
                simp only [Bool.not_eq_true', Bool.and_eq_false_iff] at h1
                rcases h1 with h | h
                · simp [h]
                · rw [h] at hwd; exact absurd hwd (by simp)
              | cons e es =>
                rw [lastNW_cons_of_ne (by simp)]
                have h2 := ih2 (by rw [hp]; simp)
                rw [hp] at h2
                exact h2
            refine ⟨?_, ?_, ?_, ?_⟩
            · intro q hq
              simp only [List.tail_cons] at hq
              exact ih1 q hq
            · intro _
              simp only [List.headD_cons]
              exact hcP
            · intro hhead _
              refine ⟨by simp, ?_⟩
              simp only [List.headD_cons]
              simpa [headNW] using hhead
            · intro habs
              simp at habs

theorem split_sentences_good (text : Str) (h1 : text ≠ []) (h2 : pyStrip text = text)
    (h3 : noDoubleWs text = true) : ∀ p ∈ split_sentences text, GoodPart p := by
  intro p hp
  have hh : headNW text = true := by rw [← h2]; exact headNW_pyStrip text
  have hl : lastNW text = true := by rw [← h2]; exact lastNW_pyStrip text
  unfold split_sentences at hp
  rw [h2] at hp
  obtain ⟨g1, g2, g3, _⟩ :=
    reSplit_parts_good text.length none text (Nat.le_refl _) h3 (fun _ => hl)
  cases hE : reSplitGo none false text with
  | nil => exact absurd hE (reSplitGo_ne_nil _ _ _)
  | cons q qs =>
    rw [hE] at hp g1 g2 g3
    simp only [List.headD_cons, List.tail_cons] at g1 g2 g3
    rcases List.mem_cons.mp hp with h | h
    · subst h
      have hq := g3 hh h1
      exact ⟨hq.1, hq.2, g2 hq.1⟩
    · exact g1 p h

theorem sentencesOf_eq_parts (text : Str) (h1 : text ≠ []) (h2 : pyStrip text = text)
    (h3 : noDoubleWs text = true) : sentencesOf text = split_sentences text := by
  have hg := split_sentences_good text h1 h2 h3
  unfold sentencesOf
  have hmap : (split_sentences text).map pyStrip = split_sentences text := by
    have : (split_sentences text).map pyStrip = (split_sentences text).map id :=
      List.map_congr_left (fun x hx => pyStrip_eq_self_of_good (hg x hx))
    rw [this, List.map_id]
  rw [hmap]
  apply List.filter_eq_self.mpr
  intro a ha
  simpa using (hg a ha).1

/-- C9: on whitespace-only input (including the empty string),
`summarize_note` returns the fixed unavailability message rather than an
empty summary or the input. -/
theorem C9_blank_input (sim : Str → Str → ℚ) (text : Str) (numSentences : Nat)
    (h : ∀ c ∈ text, wsB c = true) :
    summarize_note sim text numSentences = noSummaryMsg := by
  have hstrip : pyStrip text = [] := by
    unfold pyStrip pyStripL
    rw [List.dropWhile_eq_nil_iff.mpr h]
    rfl
  unfold summarize_note
  rw [if_pos hstrip]

theorem C9_witness :
    summarize_note (fun _ _ => 0) (str "  ") 3 = noSummaryMsg ∧
    summarize_note (fun _ _ => 0) [] 3 = noSummaryMsg :=
  ⟨C9_blank_input _ _ _ (by decide), C9_blank_input _ _ _ (by decide)⟩

/-- C3 fails as stated: the input `"A.  B."` has 2 sentences (≤ 3), but
`summarize_note` collapses the double space and returns `"A. B."`,
not the input text untouched. -/
theorem C3_counterexample :
    (sentencesOf (str "A.  B.")).length ≤ 3 ∧
    summarize_note (fun _ _ => 0) (str "A.  B.") 3 ≠ str "A.  B." := by
  constructor
  · decide
  · decide

/-- C3 (amended): for every input, `summarize_note` returns the fixed
unavailability message when the text is whitespace-only; otherwise,
when the sentence count is at most 3, it returns the stripped,
nonempty sentences joined by single spaces — not the full text
untouched in general; in particular the result is the untouched input
whenever the text is nonempty, already stripped, and contains no two
adjacent whitespace characters. -/
theorem C3_amended_join (sim : Str → Str → ℚ) (text : Str) :
    (pyStrip text = [] → summarize_note sim text 3 = noSummaryMsg) ∧
    (pyStrip text ≠ [] → (sentencesOf text).length ≤ 3 →
      summarize_note sim text 3 = joinSep (str " ") (sentencesOf text)) ∧
    (text ≠ [] → pyStrip text = text → noDoubleWs text = true →
      (sentencesOf text).length ≤ 3 → summarize_note sim text 3 = text) := by
  have hjoin : pyStrip text ≠ [] → (sentencesOf text).length ≤ 3 →
      summarize_note sim text 3 = joinSep (str " ") (sentencesOf text) := by
    intro hne hlen
    have hs : ((split_sentences text).map pyStrip).filter (fun s => s ≠ []) =
        sentencesOf text := rfl
    unfold summarize_note
    rw [if_neg hne]
    simp only [hs]
    rw [if_pos hlen]
  refine ⟨?_, hjoin, ?_⟩
  · intro h
    unfold summarize_note
    rw [if_pos h]
  · intro h1 h2 h3 h4
    have hne : pyStrip text ≠ [] := by rw [h2]; exact h1
    rw [hjoin hne h4, sentencesOf_eq_parts text h1 h2 h3]
    unfold split_sentences
    rw [h2]
    exact joinSep_reSplitGo text.length none text (Nat.le_refl _) h3

/-- Witness for C3 at concrete inputs: blank input yields the fixed
message, an unstripped short input yields the joined stripped
sentences, and a clean short input comes back untouched. -/
theorem C3_witness :
    summarize_note (fun _ _ => 0) (str " ") 3 = noSummaryMsg ∧
    summarize_note (fun _ _ => 0) (str " A.") 3 =
      joinSep (str " ") (sentencesOf (str " A.")) ∧
    summarize_note (fun _ _ => 0) (str "A. B.") 3 = str "A. B." :=
  ⟨(C3_amended_join (fun _ _ => 0) (str " ")).1 (by decide),
   (C3_amended_join (fun _ _ => 0) (str " A.")).2.1 (by decide) (by decide),
   (C3_amended_join (fun _ _ => 0) (str "A. B.")).2.2 (by decide) (by decide)
     (by decide) (by decide)⟩

theorem insertDescQ_perm (key : Nat → ℚ) (i : Nat) :
    ∀ l : List Nat, List.Perm (insertDescQ key i l) (i :: l) := by
  intro l
  induction l with
  | nil => exact List.Perm.refl _
  | cons j t ih =>
    rw [insertDescQ]
    split
    · exact List.Perm.refl _
    · exact (ih.cons j).trans (List.Perm.swap i j t)

theorem sortDescQ_perm (key : Nat → ℚ) :
    ∀ l : List Nat, List.Perm (sortDescQ key l) l := by
  intro l
  induction l with
  | nil => exact List.Perm.refl _
  | cons x xs ih =>
    rw [sortDescQ]
    exact (insertDescQ_perm key x (sortDescQ key xs)).trans (ih.cons x)

theorem insertDescQ_sorted (key : Nat → ℚ) (i : Nat) :
    ∀ l : List Nat, List.Pairwise (fun a b => key b ≤ key a) l →
    List.Pairwise (fun a b => key b ≤ key a) (insertDescQ key i l) := by
  intro l
  induction l with
  | nil => intro _; simp [insertDescQ]
  | cons j t ih =>
    intro h
    rcases List.pairwise_cons.mp h with ⟨hj, ht⟩
    rw [insertDescQ]
    split
    · rename_i hle
      refine List.pairwise_cons.mpr ⟨?_, h⟩
      intro b hb
      rcases List.mem_cons.mp hb with rfl | hb
      · exact hle
      · exact le_trans (hj b hb) hle
    · rename_i hgt
      push_neg at hgt
      refine List.pairwise_cons.mpr ⟨?_, ih ht⟩
      intro b hb
      have hb' := (insertDescQ_perm key i t).mem_iff.mp hb
      rcases List.mem_cons.mp hb' with rfl | hb'
      · exact le_of_lt hgt
      · exact hj b hb'

theorem sortDescQ_sorted (key : Nat → ℚ) :
    ∀ l : List Nat, List.Pairwise (fun a b => key b ≤ key a) (sortDescQ key l) := by
  intro l
  induction l with
  | nil => simp [sortDescQ]
  | cons x xs ih =>
    rw [sortDescQ]
    exact insertDescQ_sorted key x _ ih

theorem insertAsc_perm (i : Nat) :
    ∀ l : List Nat, List.Perm (insertAsc i l) (i :: l) := by
  intro l
  induction l with
  | nil => exact List.Perm.refl _
  | cons j t ih =>
    rw [insertAsc]
    split
    · exact List.Perm.refl _
    · exact (ih.cons j).trans (List.Perm.swap i j t)

theorem sortAsc_perm : ∀ l : List Nat, List.Perm (sortAsc l) l := by
  intro l
  induction l with
  | nil => exact List.Perm.refl _
  | cons x xs ih =>
    rw [sortAsc]
    exact (insertAsc_perm x (sortAsc xs)).trans (ih.cons x)

theorem insertAsc_sorted (i : Nat) :
    ∀ l : List Nat, List.Pairwise (· ≤ ·) l →
    List.Pairwise (· ≤ ·) (insertAsc i l) := by
  intro l
  induction l with
  | nil => intro _; simp [insertAsc]
  | cons j t ih =>
    intro h
    rcases List.pairwise_cons.mp h with ⟨hj, ht⟩
    rw [insertAsc]
    split
    · rename_i hle
      refine List.pairwise_cons.mpr ⟨?_, h⟩
      intro b hb
      rcases List.mem_cons.mp hb with rfl | hb
      · exact hle
      · exact le_trans hle (hj b hb)
    · rename_i hgt
      push_neg at hgt
      refine List.pairwise_cons.mpr ⟨?_, ih ht⟩
      intro b hb
      have hb' := (insertAsc_perm i t).mem_iff.mp hb
      rcases List.mem_cons.mp hb' with rfl | hb'
      · exact le_of_lt hgt
      · exact hj b hb'

theorem sortAsc_sorted : ∀ l : List Nat, List.Pairwise (· ≤ ·) (sortAsc l) := by
  intro l
  induction l with
  | nil => simp [sortAsc]
  | cons x xs ih =>
    rw [sortAsc]
    exact insertAsc_sorted x _ ih

/-- C5: on input with more than `n` sentences, `summarize_note` returns the
sentences at the selected indices joined in original order; the selection
has exactly `n` strictly increasing valid indices, and every selected
index has document-similarity at least that of every unselected index. -/
theorem C5_top_similarity_selection (sim : Str → Str → ℚ) (text : Str) (n : Nat)
    (hb : pyStrip text ≠ []) (hn : n < (sentencesOf text).length) :
    summarize_note sim text n =
      joinSep (str " ") ((topIdx sim text n).map (fun i => (sentencesOf text).getD i [])) ∧
    (topIdx sim text n).length = n ∧
    List.Pairwise (· < ·) (topIdx sim text n) ∧
    (∀ i ∈ topIdx sim text n, i < (sentencesOf text).length) ∧
    (∀ i ∈ topIdx sim text n, ∀ j, j < (sentencesOf text).length →
      j ∉ topIdx sim text n →
      (simsOf sim text).getD j 0 ≤ (simsOf sim text).getD i 0) := by
  have hN : (sentencesOf text).length =
      (((split_sentences text).map pyStrip).filter (fun s => s ≠ [])).length := rfl
  set N := (sentencesOf text).length with hNdef
  set key := fun i => (simsOf sim text).getD i 0 with hkey
  set sorted := sortDescQ key (List.range N) with hsorted
  have hperm : List.Perm sorted (List.range N) := sortDescQ_perm key (List.range N)
  have hlenS : sorted.length = N := by rw [hperm.length_eq, List.length_range]
  set top := sorted.take n with htop
  have hlenT : top.length = n := by
    rw [htop, List.length_take, hlenS]
    omega
  have hpermA : List.Perm (sortAsc top) top := sortAsc_perm top
  have htopIdx : topIdx sim text n = sortAsc top := rfl
  have hndS : sorted.Nodup := hperm.nodup_iff.mpr (List.nodup_range N)
  have hndT : top.Nodup := hndS.sublist (List.take_sublist n sorted)
  have hndA : (sortAsc top).Nodup := hpermA.nodup_iff.mpr hndT
  have hmemT : ∀ i ∈ top, i < N := by
    intro i hi
    have : i ∈ List.range N := hperm.mem_iff.mp ((List.take_sublist n sorted).mem hi)
    exact List.mem_range.mp this
  have hsplit : sorted = top ++ sorted.drop n := by rw [htop, List.take_append_drop]
  have hcross : ∀ a ∈ top, ∀ b ∈ sorted.drop n, key b ≤ key a := by
    have hs := sortDescQ_sorted key (List.range N)
    rw [← hsorted, hsplit] at hs
    exact fun a ha b hb => (List.pairwise_append.mp hs).2.2 a ha b hb
  refine ⟨?_, ?_, ?_, ?_, ?_⟩
  · -- the returned summary is the join at the selected indices
    have hn' : ¬ ((((split_sentences text).map pyStrip).filter (fun s => s ≠ [])).length ≤ n) := by
      rw [← hN]; omega
    unfold summarize_note
    rw [if_neg hb, if_neg hn']
    rfl
  · rw [htopIdx, hpermA.length_eq, hlenT]
  · have hle := sortAsc_sorted top
    have := List.Pairwise.and hle (List.Pairwise.imp (fun h => h) hndA)
    exact this.imp (fun h => lt_of_le_of_ne h.1 h.2)
  · intro i hi
    rw [htopIdx] at hi
    exact hmemT i (hpermA.mem_iff.mp hi)
  · intro i hi j hj hjn
    rw [htopIdx] at hi hjn
    have hiT : i ∈ top := hpermA.mem_iff.mp hi
    have hjT : j ∉ top := fun h => hjn (hpermA.mem_iff.mpr h)
    have hjS : j ∈ sorted := hperm.mem_iff.mpr (List.mem_range.mpr hj)
    have hjD : j ∈ sorted.drop n := by
      rw [hsplit] at hjS
      rcases List.mem_append.mp hjS with h | h
      · exact absurd h hjT
      · exact h
    exact hcross i hiT j hjD

theorem C5_witness :
    pyStrip (str "A. B.") ≠ [] ∧ 1 < (sentencesOf (str "A. B.")).length ∧
    (summarize_note (fun _ _ => 0) (str "A. B.") 1 =
      joinSep (str " ") ((topIdx (fun _ _ => 0) (str "A. B.") 1).map
        (fun i => (sentencesOf (str "A. B.")).getD i [])) ∧
     (topIdx (fun _ _ => 0) (str "A. B.") 1).length = 1 ∧
     List.Pairwise (· < ·) (topIdx (fun _ _ => 0) (str "A. B.") 1) ∧
     (∀ i ∈ topIdx (fun _ _ => 0) (str "A. B.") 1,
        i < (sentencesOf (str "A. B.")).length) ∧
     (∀ i ∈ topIdx (fun _ _ => 0) (str "A. B.") 1,
        ∀ j, j < (sentencesOf (str "A. B.")).length →
        j ∉ topIdx (fun _ _ => 0) (str "A. B.") 1 →
        (simsOf (fun _ _ => 0) (str "A. B.")).getD j 0 ≤
          (simsOf (fun _ _ => 0) (str "A. B.")).getD i 0)) :=
  ⟨by decide, by decide, C5_top_similarity_selection _ _ 1 (by decide) (by decide)⟩

/-! ## Lemmas for the diagnosis-label matcher -/

theorem ciPref_append_self : ∀ (l r : Str), ciPref l (l ++ r) = true := by
  intro l r
  induction l with
  | nil => rfl
  | cons a pa ih =>
    show (ciEqCh a a && ciPref pa (pa ++ r)) = true
    rw [ih]
    simp [ciEqCh]

theorem ciPref_len : ∀ (l s : Str), ciPref l s = true → l.length ≤ s.length := by
  intro l
  induction l with
  | nil => intro s _; simp
  | cons a pa ih =>
    intro s h
    cases s with
    | nil => exact absurd h (by simp [ciPref])
    | cons b sb =>
      rw [ciPref] at h
      simp only [Bool.and_eq_true] at h
      simpa using Nat.succ_le_succ (ih sb h.2)

theorem ciPref_lower : ∀ (l s : Str), ciPref l s = true →
    pyLower (s.take l.length) = pyLower l := by
  intro l
  induction l with
  | nil => intro s _; rfl
  | cons a pa ih =>
    intro s h
    cases s with
    | nil => exact absurd h (by simp [ciPref])
    | cons b sb =>
      rw [ciPref] at h
      simp only [Bool.and_eq_true] at h
      have hab : lowCh a = lowCh b := by
        have := h.1
        simpa [ciEqCh] using this
      show pyLower (b :: sb.take pa.length) = pyLower (a :: pa)
      unfold pyLower
      simp only [List.map_cons]
      rw [← hab]
      have := ih sb h.2
      unfold pyLower at this
      rw [this]

theorem ciPref_take : ∀ (a : Str) (l b : Str), ciPref l (a ++ b) = true →
    ciPref (l.take a.length) a = true := by
  intro a
  induction a with
  | nil => intro l b _; rfl
  | cons c ta ih =>
    intro l b h
    cases l with
    | nil => rfl
    | cons x lx =>
      rw [List.cons_append, ciPref] at h
      simp only [Bool.and_eq_true] at h
      show (ciEqCh x c && ciPref (lx.take ta.length) ta) = true
      rw [ih lx b h.2]
      simp [h.1]

theorem ciSub_of_pref_drop : ∀ (v : Str) (L : Str) (i : Nat),
    ciPref L (List.drop i v) = true → ciSubB L v = true := by
  intro v
  induction v with
  | nil =>
    intro L i h
    simp only [List.drop_nil] at h
    show ciPref L [] = true
    exact h
  | cons c t ih =>
    intro L i h
    cases i with
    | zero =>
      rw [List.drop_zero] at h
      rw [ciSubB, h]
      simp
    | succ i =>
      rw [List.drop_succ_cons] at h
      rw [ciSubB, ih L i h]
      simp

theorem searchLab_skip (L : Str) : ∀ (A B : Str), NoStartP L A B →
    searchLab L (A ++ B) = searchLab L B := by
  intro A
  induction A with
  | nil => intro B _; rfl
  | cons c A' ih =>
    intro B h
    have h0 : ciPref L (c :: (A' ++ B)) = false := by
      have := h 0 (by simp)
      simpa using this
    show searchLab L (c :: (A' ++ B)) = searchLab L B
    rw [searchLab, h0]
    simp only [Bool.false_eq_true, if_false]
    apply ih
    intro i hi
    have := h (i + 1) (by simp only [List.length_cons]; omega)
    simpa using this

theorem noStartP_append (L A B C : Str)
    (h1 : NoStartP L A (B ++ C)) (h2 : NoStartP L B C) : NoStartP L (A ++ B) C := by
  intro i hi
  rw [List.append_assoc]
  by_cases hiA : i < A.length
  · exact h1 i hiA
  · have hlen : i - A.length < B.length := by
      rw [List.length_append] at hi; omega
    have hdrop : List.drop i (A ++ (B ++ C)) = List.drop (i - A.length) (B ++ C) := by
      conv_lhs => rw [show i = A.length + (i - A.length) by omega]
      rw [List.drop_append]
    rw [hdrop]
    exact h2 _ hlen

theorem noStartP_lit (L A : Str)
    (hA : ∀ i, i < A.length → ciPref (L.take (A.length - i)) (List.drop i A) = false) :
    ∀ B, NoStartP L A B := by
  intro B i hi
  by_contra hP
  rw [Bool.not_eq_false] at hP
  have hdrop : List.drop i (A ++ B) = List.drop i A ++ B :=
    List.drop_append_of_le_length (Nat.le_of_lt hi)
  rw [hdrop] at hP
  have := ciPref_take (List.drop i A) L B hP
  rw [List.length_drop] at this
  rw [hA i hi] at this
  exact absurd this (by simp)

theorem noStartP_single (a : Char) (L' : Str) (c : Char) (B : Str)
    (h : ciEqCh a c = false) : NoStartP (a :: L') [c] B := by
  intro i hi
  have hi0 : i = 0 := by simpa using hi
  subst hi0
  show ciPref (a :: L') (c :: B) = false
  rw [ciPref, h]
  simp

theorem noStartP_value (L v : Str) (rest : Str)
    (hsub : ciSubB L v = false) (hnl : '\n' ∉ pyLower L) :
    NoStartP L v ('\n' :: rest) := by
  intro i hi
  by_contra hP
  rw [Bool.not_eq_false] at hP
  have hdrop : List.drop i (v ++ '\n' :: rest) = List.drop i v ++ '\n' :: rest :=
    List.drop_append_of_le_length (Nat.le_of_lt hi)
  rw [hdrop] at hP
  by_cases hlen : L.length ≤ (List.drop i v).length
  · have htk := ciPref_take (List.drop i v) L ('\n' :: rest) hP
    rw [List.take_of_length_le] at htk
    · exact absurd (ciSub_of_pref_drop v L i htk) (by rw [hsub]; simp)
    · rw [List.length_drop]
      rw [List.length_drop] at hlen
      exact hlen
  · push_neg at hlen
    have hlow := ciPref_lower L _ hP
    have hmem : '\n' ∈ (List.drop i v ++ '\n' :: rest).take L.length := by
      rw [List.take_append_eq_append_take]
      refine List.mem_append.mpr (Or.inr ?_)
      have hpos : 0 < L.length - (List.drop i v).length := by omega
      cases hk : L.length - (List.drop i v).length with
      | zero => omega
      | succ k =>
        rw [List.take_succ_cons]
        simp
    have : '\n' ∈ pyLower ((List.drop i v ++ '\n' :: rest).take L.length) := by
      unfold pyLower
      have : lowCh '\n' ∈ ((List.drop i v ++ '\n' :: rest).take L.length).map lowCh :=
        List.mem_map_of_mem lowCh hmem
      simpa using this
    rw [hlow] at this
    exact hnl this

theorem lazyG_full : ∀ (v rest' : Str), v ≠ [] → (∀ c ∈ v, c ≠ '\n') →
    noDoubleWs v = true → lastNW v = true →
    (rest' = [] ∨ rest'.head? = some '\n') →
    lazyG (v ++ rest') = some v := by
  intro v
  induction v with
  | nil => intro rest' h; exact absurd rfl h
  | cons c t ih =>
    intro rest' _ hnl hD hlast hrest
    cases t with
    | nil =>
      show lazyG (c :: rest') = some [c]
      rw [lazyG]
      have hterm : termB rest' = true := by
        rcases hrest with h | h
        · subst h; rfl
        · cases rest' with
          | nil => simp at h
          | cons d r' =>
            simp only [List.head?_cons, Option.some.injEq] at h
            subst h
            simp [termB]
      rw [if_pos hterm]
    | cons d t' =>
      show lazyG (c :: (d :: (t' ++ rest'))) = some (c :: d :: t')
      rw [lazyG]
      have hdnl : d ≠ '\n' := hnl d (by simp)
      have hterm : termB (d :: (t' ++ rest')) = false := by
        have htw : twoWs (d :: (t' ++ rest')) = false := by
          cases t' with
          | nil =>
            rcases hrest with h | h
            · subst h; rfl
            · cases rest' with
              | nil => rfl
              | cons e r' =>
                have hd : wsB d = false := by
                  have := hlast
                  rw [lastNW_cons_of_ne (by simp), lastNW_singleton] at this
                  simpa using this
                show (wsB d && wsB e) = false
                rw [hd]
                simp
          | cons e t'' =>
            have := hD
            rw [noDoubleWs, adjOK] at this
            simp only [Bool.and_eq_true] at this
            have h2 := this.2
            rw [adjOK] at h2
            simp only [Bool.and_eq_true] at h2
            have := h2.1
            simp only [Bool.not_eq_true'] at this
            show (wsB d && wsB e) = false
            exact this
        rw [termB, htw]
        simp only [Bool.false_or, List.isEmpty_cons, List.head?_cons]
        simp [hdnl]
      rw [hterm]
      simp only [Bool.false_eq_true, if_false]
      have hrec := ih rest' (by simp) (fun x hx => hnl x (by simp [hx]))
        (adjOK_tail hD) (by rw [← lastNW_cons_of_ne (c := c) (by simp)]; exact hlast) hrest
      show (lazyG ((d :: t') ++ rest')).map (fun g => c :: g) = some (c :: d :: t')
      rw [hrec]
      rfl

theorem engineLab_value (v rest' : Str) (hv : v ≠ []) (hh : headNW v = true)
    (hnl : ∀ c ∈ v, c ≠ '\n') (hD : noDoubleWs v = true) (hlast : lastNW v = true)
    (hrest : rest' = [] ∨ rest'.head? = some '\n') :
    engineLab (' ' :: (v ++ rest')) = some v := by
  unfold engineLab
  have hlz : lazyG (v ++ rest') = some v := lazyG_full v rest' hv hnl hD hlast hrest
  have htk : ((' ' :: (v ++ rest')).takeWhile wsB).length = 1 := by
    cases v with
    | nil => exact absurd rfl hv
    | cons c t =>
      have hc : wsB c = false := by
        simp only [headNW, Bool.not_eq_true'] at hh
        exact hh
      rw [List.takeWhile_cons]
      simp only [show wsB ' ' = true from rfl, if_true]
      rw [List.cons_append, List.takeWhile_cons]
      rw [hc]
      simp
  rw [htk]
  show tryFrom (' ' :: (v ++ rest')) (0 + 1) = some v
  rw [tryFrom]
  have hd1 : (' ' :: (v ++ rest')).drop (0 + 1) = v ++ rest' := rfl
  rw [hd1, hlz]

theorem searchLab_hit (L rest : Str) (hL : L ≠ []) (g : Str)
    (hE : engineLab rest = some g) : searchLab L (L ++ rest) = some g := by
  cases L with
  | nil => exact absurd rfl hL
  | cons a L' =>
    show searchLab (a :: L') (a :: (L' ++ rest)) = some g
    rw [searchLab]
    have hp : ciPref (a :: L') (a :: (L' ++ rest)) = true := ciPref_append_self (a :: L') rest
    rw [hp]
    simp only [if_true]
    have hdrop : (a :: (L' ++ rest)).drop (a :: L').length = rest := by
      show (a :: (L' ++ rest)).drop (L'.length + 1) = rest
      rw [List.drop_succ_cons]
      exact List.drop_left L' rest
    rw [hdrop, hE]

theorem searchFind (L v tail : Str) (hL : L ≠ []) (hv : GoodVal v)
    (htail : tail = [] ∨ tail.head? = some '\n') :
    searchLab L (L ++ (str " " ++ (v ++ tail))) = some v := by
  apply searchLab_hit _ _ hL
  show engineLab (' ' :: (v ++ tail)) = some v
  exact engineLab_value v tail hv.1 hv.2.1 hv.2.2.2.2 hv.2.2.2.1 hv.2.2.1 htail

theorem searchLD (d r u n : Str) (hd : GoodVal d) :
    searchLab ldLabel (mkResp d r u n) = some d := by
  have hshape : mkResp d r u n =
      ldLabel ++ (str " " ++ (d ++ (str "\nReasoning: " ++ (r ++ (str "\nUrgency: " ++
        (u ++ (str "\nNext Steps: " ++ n))))))) := by
    rw [mkResp, ← List.append_assoc]
    rfl
  rw [hshape]
  apply searchFind ldLabel d _ (by decide) hd
  right; rfl

theorem searchRS (d r u n : Str) (hr : GoodVal r) (hLd : NoLabs d) :
    searchLab rsLabel (mkResp d r u n) = some r := by
  have hshape : mkResp d r u n =
      (str "Likely Diagnosis: " ++ (d ++ str "\n")) ++
        (rsLabel ++ (str " " ++ (r ++ (str "\nUrgency: " ++
          (u ++ (str "\nNext Steps: " ++ n)))))) := by
    rw [mkResp]
    have m1 : str "\nReasoning: " = str "\n" ++ (rsLabel ++ str " ") := rfl
    rw [m1]
    simp [List.append_assoc]
  rw [hshape]
  rw [searchLab_skip rsLabel _ _ ?hns]
  case hns =>
    apply noStartP_append
    · exact noStartP_lit rsLabel (str "Likely Diagnosis: ") (by decide) _
    · apply noStartP_append
      · exact noStartP_value rsLabel d _ hLd.1 (by decide)
      · exact noStartP_single 'R' (str "easoning:") '\n' _ (by decide)
  apply searchFind rsLabel r _ (by decide) hr
  right; rfl

theorem searchUR (d r u n : Str) (hu : GoodVal u) (hLd : NoLabs d) (hLr : NoLabs r) :
    searchLab urLabel (mkResp d r u n) = some u := by
  have hshape : mkResp d r u n =
      (str "Likely Diagnosis: " ++ (d ++ (str "\nReasoning: " ++ (r ++ str "\n")))) ++
        (urLabel ++ (str " " ++ (u ++ (str "\nNext Steps: " ++ n)))) := by
    rw [mkResp]
    have m1 : str "\nUrgency: " = str "\n" ++ (urLabel ++ str " ") := rfl
    rw [m1]
    simp [List.append_assoc]
  rw [hshape]
  rw [searchLab_skip urLabel _ _ ?hns]
  case hns =>
    apply noStartP_append
    · exact noStartP_lit urLabel (str "Likely Diagnosis: ") (by decide) _
    · apply noStartP_append
      · exact noStartP_value urLabel d _ hLd.2.1 (by decide)
      · apply noStartP_append
        · exact noStartP_lit urLabel (str "\nReasoning: ") (by decide) _
        · apply noStartP_append
          · exact noStartP_value urLabel r _ hLr.2.1 (by decide)
          · exact noStartP_single 'U' (str "rgency:") '\n' _ (by decide)
  apply searchFind urLabel u _ (by decide) hu
  right; rfl

theorem searchNS (d r u n : Str) (hn : GoodVal n) (hLd : NoLabs d) (hLr : NoLabs r)
    (hLu : NoLabs u) :
    searchLab nsLabel (mkResp d r u n) = some n := by
  have hshape : mkResp d r u n =
      (str "Likely Diagnosis: " ++ (d ++ (str "\nReasoning: " ++ (r ++
        (str "\nUrgency: " ++ (u ++ str "\n")))))) ++
        (nsLabel ++ (str " " ++ n)) := by
    rw [mkResp]
    have m1 : str "\nNext Steps: " = str "\n" ++ (nsLabel ++ str " ") := rfl
    rw [m1]
    simp [List.append_assoc]
  rw [hshape]
  rw [searchLab_skip nsLabel _ _ ?hns]
  case hns =>
    apply noStartP_append
    · exact noStartP_lit nsLabel (str "Likely Diagnosis: ") (by decide) _
    · apply noStartP_append
      · exact noStartP_value nsLabel d _ hLd.2.2 (by decide)
      · apply noStartP_append
        · exact noStartP_lit nsLabel (str "\nReasoning: ") (by decide) _
        · apply noStartP_append
          · exact noStartP_value nsLabel r _ hLr.2.2 (by decide)
          · apply noStartP_append
            · exact noStartP_lit nsLabel (str "\nUrgency: ") (by decide) _
            · apply noStartP_append
              · exact noStartP_value nsLabel u _ hLu.2.2 (by decide)
              · exact noStartP_single 'N' (str "ext Steps:") '\n' _ (by decide)
  have hfin : nsLabel ++ (str " " ++ n) = nsLabel ++ (str " " ++ (n ++ [])) := by
    simp
  rw [hfin]
  apply searchFind nsLabel n [] (by decide) hn
  left; rfl

theorem parse_diagnosis_response_eq (resp : Str) :
    parse_diagnosis_response resp =
      [ (str "likely_diagnosis", fieldOf ldLabel (removeDS resp)),
        (str "reasoning", fieldOf rsLabel (removeDS resp)),
        (str "urgency", fieldOf urLabel (removeDS resp)),
        (str "next_steps", fieldOf nsLabel (removeDS resp)) ] := rfl

/-- C1: `parse_diagnosis_response` always returns exactly the four keys
`likely_diagnosis`, `reasoning`, `urgency`, `next_steps` (in this order);
a field whose pattern finds no match is the empty string; and on a reply
in the fixed labeled format (after markdown-bold stripping) with
well-formed single-line values, each field is exactly the extracted,
whitespace-stripped value. -/
theorem C1_parse_response_fields (resp d r u n : Str) :
    ((parse_diagnosis_response resp).map Prod.fst =
      [str "likely_diagnosis", str "reasoning", str "urgency", str "next_steps"]) ∧
    (searchLab ldLabel (removeDS resp) = none →
      lookupStr (parse_diagnosis_response resp) (str "likely_diagnosis") = some []) ∧
    (searchLab rsLabel (removeDS resp) = none →
      lookupStr (parse_diagnosis_response resp) (str "reasoning") = some []) ∧
    (searchLab urLabel (removeDS resp) = none →
      lookupStr (parse_diagnosis_response resp) (str "urgency") = some []) ∧
    (searchLab nsLabel (removeDS resp) = none →
      lookupStr (parse_diagnosis_response resp) (str "next_steps") = some []) ∧
    (removeDS resp = mkResp d r u n → GoodVal d → GoodVal r → GoodVal u → GoodVal n →
      NoLabs d → NoLabs r → NoLabs u →
      parse_diagnosis_response resp =
        [(str "likely_diagnosis", d), (str "reasoning", r),
         (str "urgency", u), (str "next_steps", n)]) := by
  refine ⟨rfl, ?_, ?_, ?_, ?_, ?_⟩
  · intro h
    rw [parse_diagnosis_response_eq, lookupStr, if_pos rfl]
    unfold fieldOf
    rw [h]
  · intro h
    rw [parse_diagnosis_response_eq, lookupStr, if_neg (by decide), lookupStr, if_pos rfl]
    unfold fieldOf
    rw [h]
  · intro h
    rw [parse_diagnosis_response_eq, lookupStr, if_neg (by decide), lookupStr,
      if_neg (by decide), lookupStr, if_pos rfl]
    unfold fieldOf
    rw [h]
  · intro h
    rw [parse_diagnosis_response_eq, lookupStr, if_neg (by decide), lookupStr,
      if_neg (by decide), lookupStr, if_neg (by decide), lookupStr, if_pos rfl]
    unfold fieldOf
    rw [h]
  · intro hresp hd hr hu hn hLd hLr hLu
    rw [parse_diagnosis_response_eq, hresp]
    have e1 : fieldOf ldLabel (mkResp d r u n) = d := by
      unfold fieldOf
      rw [searchLD d r u n hd]
      exact pyStrip_eq_self hd.2.1 hd.2.2.1
    have e2 : fieldOf rsLabel (mkResp d r u n) = r := by
      unfold fieldOf
      rw [searchRS d r u n hr hLd]
      exact pyStrip_eq_self hr.2.1 hr.2.2.1
    have e3 : fieldOf urLabel (mkResp d r u n) = u := by
      unfold fieldOf
      rw [searchUR d r u n hu hLd hLr]
      exact pyStrip_eq_self hu.2.1 hu.2.2.1
    have e4 : fieldOf nsLabel (mkResp d r u n) = n := by
      unfold fieldOf
      rw [searchNS d r u n hn hLd hLr hLu]
      exact pyStrip_eq_self hn.2.1 hn.2.2.1
    rw [e1, e2, e3, e4]

theorem C1_witness :
    removeDS (str "**Likely Diagnosis:** Flu\nReasoning: Fever and cough\nUrgency: Routine\nNext Steps: Rest") =
      mkResp (str "Flu") (str "Fever and cough") (str "Routine") (str "Rest") ∧
    GoodVal (str "Flu") ∧ NoLabs (str "Flu") ∧
    parse_diagnosis_response
        (str "**Likely Diagnosis:** Flu\nReasoning: Fever and cough\nUrgency: Routine\nNext Steps: Rest") =
      [(str "likely_diagnosis", str "Flu"), (str "reasoning", str "Fever and cough"),
       (str "urgency", str "Routine"), (str "next_steps", str "Rest")] :=
  ⟨by decide, by decide, by decide,
    (C1_parse_response_fields _ (str "Flu") (str "Fever and cough") (str "Routine")
        (str "Rest")).2.2.2.2.2
      (by decide) (by decide) (by decide) (by decide) (by decide)
      (by decide) (by decide) (by decide)⟩

/-! ## Dict-operation lemmas -/

theorem dget_dExtendStrs_self : ∀ (d : PyDict) (k : Str) (l l0 : List Str),
    dget d k = some (.strs l0) →
    dget (dExtendStrs d k l) k = some (.strs (l0 ++ l)) := by
  intro d k l
  induction d with
  | nil => intro l0 h; simp [dget] at h
  | cons kv t ih =>
    intro l0 h
    obtain ⟨k', v⟩ := kv
    rw [dget] at h
    rw [dExtendStrs]
    by_cases hk : k' = k
    · rw [if_pos hk] at h
      injection h with hv
      subst hv
      rw [if_pos hk, dget, if_pos hk]
      rfl
    · rw [if_neg hk] at h
      rw [if_neg hk, dget, if_neg hk]
      exact ih l0 h

theorem dget_dExtendStrs_ne : ∀ (d : PyDict) (k' : Str) (l : List Str) (k : Str),
    k' ≠ k → dget (dExtendStrs d k' l) k = dget d k := by
  intro d k' l k hne
  induction d with
  | nil => rfl
  | cons kv t ih =>
    obtain ⟨k0, v⟩ := kv
    rw [dExtendStrs]
    by_cases h0 : k0 = k'
    · subst h0
      rw [if_pos rfl, dget, dget]
      rw [if_neg hne, if_neg hne]
      exact ih
    · rw [if_neg h0, dget, dget]
      by_cases h1 : k0 = k
      · rw [if_pos h1, if_pos h1]
      · rw [if_neg h1, if_neg h1]
        exact ih

theorem dget_dset_self : ∀ (d : PyDict) (k : Str) (v : EntVal),
    dget (dset d k v) k = some v := by
  intro d k v
  induction d with
  | nil => simp [dset, dget]
  | cons kv t ih =>
    obtain ⟨k0, v0⟩ := kv
    rw [dset]
    by_cases h0 : k0 = k
    · rw [if_pos h0, dget, if_pos h0]
    · rw [if_neg h0, dget, if_neg h0]
      exact ih

theorem dget_dset_ne : ∀ (d : PyDict) (k' : Str) (v : EntVal) (k : Str),
    k' ≠ k → dget (dset d k' v) k = dget d k := by
  intro d k' v k hne
  induction d with
  | nil => simp [dset, dget, hne]
  | cons kv t ih =>
    obtain ⟨k0, v0⟩ := kv
    rw [dset]
    by_cases h0 : k0 = k'
    · subst h0
      rw [if_pos rfl, dget, dget]
      rw [if_neg hne, if_neg hne]
    · rw [if_neg h0, dget, dget]
      by_cases h1 : k0 = k
      · rw [if_pos h1, if_pos h1]
      · rw [if_neg h1, if_neg h1]
        exact ih

theorem dget_foldSections_ne : ∀ (prs : List (Str × List Str)) (d : PyDict) (k : Str),
    (∀ pr ∈ prs, pr.1 ≠ k) →
    dget (prs.foldl (fun d pr =>
      if hasKey d pr.1 then d else dset d pr.1 (.strs pr.2)) d) k = dget d k := by
  intro prs
  induction prs with
  | nil => intro d k _; rfl
  | cons pr t ih =>
    intro d k h
    rw [List.foldl_cons]
    rw [ih _ k (fun q hq => h q (by simp [hq]))]
    split
    · rfl
    · exact dget_dset_ne d pr.1 _ k (h pr (by simp))

theorem hasKey_of_dget {d : PyDict} {k : Str} {v : EntVal}
    (h : dget d k = some v) : hasKey d k = true := by
  unfold hasKey
  rw [h]
  rfl

theorem mem_extract_by_sections_fst (text : Str) (pr : Str × List Str)
    (h : pr ∈ extract_by_sections text) :
    pr.1 = str "chief_complaint" ∨ pr.1 = str "history_of_present_illness" ∨
    pr.1 = str "review_of_systems" ∨ pr.1 = str "physical_exam" ∨
    pr.1 = str "assessment_and_plan" := by
  unfold extract_by_sections bySectionPatterns at h
  simp only [List.map_cons, List.map_nil, List.mem_cons, List.not_mem_nil, or_false] at h
  rcases h with h | h | h | h | h <;> rw [h]
  · exact Or.inl rfl
  · exact Or.inr (Or.inl rfl)
  · exact Or.inr (Or.inr (Or.inl rfl))
  · exact Or.inr (Or.inr (Or.inr (Or.inl rfl)))
  · exact Or.inr (Or.inr (Or.inr (Or.inr rfl)))

theorem noSectionKey_vits (text : Str) :
    ∀ pr ∈ extract_by_sections text, pr.1 ≠ str "vitals_with_values" := by
  intro pr hpr
  rcases mem_extract_by_sections_fst text pr hpr with h | h | h | h | h <;>
    (rw [h]; decide)

theorem noSectionKey_meds (text : Str) :
    ∀ pr ∈ extract_by_sections text, pr.1 ≠ str "medications" := by
  intro pr hpr
  rcases mem_extract_by_sections_fst text pr hpr with h | h | h | h | h <;>
    (rw [h]; decide)

theorem noSectionKey_pmh (text : Str) :
    ∀ pr ∈ extract_by_sections text, pr.1 ≠ str "past_medical_history" := by
  intro pr hpr
  rcases mem_extract_by_sections_fst text pr hpr with h | h | h | h | h <;>
    (rw [h]; decide)

theorem dget_mergeSecMeds_ne (d : PyDict) (text k : Str)
    (h : str "medications" ≠ k) : dget (mergeSecMeds d text) k = dget d k := by
  unfold mergeSecMeds
  split
  · exact dget_dExtendStrs_ne _ _ _ _ h
  · rfl

theorem dget_mergeSecPmh_ne (d : PyDict) (text k : Str)
    (h : str "past_medical_history" ≠ k) :
    dget (mergeSecPmh d text) k = dget d k := by
  unfold mergeSecPmh
  split
  · exact dget_dExtendStrs_ne _ _ _ _ h
  · rfl

theorem dget_addSections_ne (d : PyDict) (text k : Str)
    (h : ∀ pr ∈ extract_by_sections text, pr.1 ≠ k) :
    dget (addSections d text) k = dget d k := by
  unfold addSections
  split
  · rfl
  · exact dget_foldSections_ne _ _ _ h

theorem dget_mergeSecMeds_self (d : PyDict) (text : Str) (l0 : List Str)
    (h : dget d (str "medications") = some (.strs l0)) :
    dget (mergeSecMeds d text) (str "medications") =
      some (.strs (l0 ++ (extract_from_sections text).medications)) := by
  unfold mergeSecMeds
  rw [if_pos (hasKey_of_dget h)]
  exact dget_dExtendStrs_self _ _ _ _ h

theorem dget_mergeSecPmh_self (d : PyDict) (text : Str) (l0 : List Str)
    (h : dget d (str "past_medical_history") = some (.strs l0)) :
    dget (mergeSecPmh d text) (str "past_medical_history") =
      some (.strs (l0 ++ (extract_from_sections text).past_medical_history)) := by
  unfold mergeSecPmh
  rw [if_pos (hasKey_of_dget h)]
  exact dget_dExtendStrs_self _ _ _ _ h

theorem dget_afterPatterns_meds (d1 : PyDict) (text : Str) (l0 : List Str)
    (h : dget d1 (str "medications") = some (.strs l0)) :
    dget (afterPatterns d1 text) (str "medications") =
      some (.strs (l0 ++ extract_medications_by_patterns text)) := by
  unfold afterPatterns
  rw [dget_dset_ne _ _ _ _ (by decide), dget_dExtendStrs_ne _ _ _ _ (by decide)]
  exact dget_dExtendStrs_self _ _ _ _ h

theorem dget_afterPatterns_pmh (d1 : PyDict) (text : Str) (l0 : List Str)
    (h : dget d1 (str "past_medical_history") = some (.strs l0)) :
    dget (afterPatterns d1 text) (str "past_medical_history") =
      some (.strs (l0 ++ extract_conditions_by_patterns text)) := by
  unfold afterPatterns
  rw [dget_dset_ne _ _ _ _ (by decide)]
  apply dget_dExtendStrs_self
  rw [dget_dExtendStrs_ne _ _ _ _ (by decide)]
  exact h

theorem dget_afterPatterns_vits (d1 : PyDict) (text : Str) :
    dget (afterPatterns d1 text) (str "vitals_with_values") =
      some (.vits (extract_vitals_with_values text)) := by
  unfold afterPatterns
  exact dget_dset_self _ _ _

theorem patternPasses_vits (d1 : PyDict) (text : Str) :
    dget (patternPasses d1 text) (str "vitals_with_values") =
      some (.vits (extract_vitals_with_values text)) := by
  unfold patternPasses
  rw [dget_addSections_ne _ _ _ (noSectionKey_vits text),
    dget_mergeSecPmh_ne _ _ _ (by decide), dget_mergeSecMeds_ne _ _ _ (by decide)]
  exact dget_afterPatterns_vits d1 text

theorem patternPasses_meds (d1 : PyDict) (text : Str) (l0 : List Str)
    (h : dget d1 (str "medications") = some (.strs l0)) :
    dget (patternPasses d1 text) (str "medications") =
      some (.strs ((l0 ++ extract_medications_by_patterns text) ++
        (extract_from_sections text).medications)) := by
  unfold patternPasses
  rw [dget_addSections_ne _ _ _ (noSectionKey_meds text),
    dget_mergeSecPmh_ne _ _ _ (by decide)]
  exact dget_mergeSecMeds_self _ _ _ (dget_afterPatterns_meds d1 text l0 h)

theorem patternPasses_pmh (d1 : PyDict) (text : Str) (l0 : List Str)
    (h : dget d1 (str "past_medical_history") = some (.strs l0)) :
    dget (patternPasses d1 text) (str "past_medical_history") =
      some (.strs ((l0 ++ extract_conditions_by_patterns text) ++
        (extract_from_sections text).past_medical_history)) := by
  unfold patternPasses
  rw [dget_addSections_ne _ _ _ (noSectionKey_pmh text)]
  apply dget_mergeSecPmh_self
  rw [dget_mergeSecMeds_ne _ _ _ (by decide)]
  exact dget_afterPatterns_pmh d1 text l0 h

/-- C2: when the chat-completion interaction inside the `try` block
raises, `suggest_diagnosis` catches the exception and returns the string
`"Diagnosis service error: " ++ str(e)` instead of propagating it, and
the `/diagnose` endpoint then answers `{"diagnosis": <error string>}`
rather than an HTTP error. -/
theorem C2_error_string (callApi : Str → Except Str Str) (req : DiagnosisRequest) (e : Str)
    (h : callApi (diagnosisPrompt req.symptoms req.conditions req.medications) = .error e) :
    suggest_diagnosis callApi req.symptoms req.conditions req.medications = errPre ++ e ∧
    diagnose_endpoint callApi req = .json [(str "diagnosis", errPre ++ e)] := by
  have h1 : suggest_diagnosis callApi req.symptoms req.conditions req.medications =
      errPre ++ e := by
    unfold suggest_diagnosis
    rw [h]
  refine ⟨h1, ?_⟩
  unfold diagnose_endpoint
  rw [h1]

theorem C2_witness :
    suggest_diagnosis (fun _ => Except.error (str "boom")) (str "a") (str "b") (str "c") =
      errPre ++ str "boom" ∧
    diagnose_endpoint (fun _ => Except.error (str "boom")) ⟨str "a", str "b", str "c"⟩ =
      .json [(str "diagnosis", errPre ++ str "boom")] :=
  C2_error_string _ ⟨str "a", str "b", str "c"⟩ _ rfl

/-- C8: an exception from the NLP pipeline is caught and extraction
degrades to pattern-only results: the outcome is identical to running
with an empty entity list, and the regex medication, condition, vitals
and section passes still populate the dict. -/
theorem C8_pipeline_failure (nlp : Str → Except Str (List NlpEnt)) (text e : Str)
    (h : nlp text = .error e) :
    extract_entities nlp text = extract_entities (fun _ => .ok []) text ∧
    dget (rawEntities nlp text) (str "medications") =
      some (.strs (extract_medications_by_patterns text ++
        (extract_from_sections text).medications)) ∧
    dget (rawEntities nlp text) (str "past_medical_history") =
      some (.strs (extract_conditions_by_patterns text ++
        (extract_from_sections text).past_medical_history)) ∧
    dget (rawEntities nlp text) (str "vitals_with_values") =
      some (.vits (extract_vitals_with_values text)) := by
  have hraw : rawEntities nlp text = patternPasses entities0 text := by
    unfold rawEntities
    rw [h]
  have hraw2 : rawEntities (fun _ => .ok []) text = patternPasses entities0 text := rfl
  refine ⟨?_, ?_, ?_, ?_⟩
  · unfold extract_entities
    rw [hraw, hraw2]
  · rw [hraw]
    rw [patternPasses_meds entities0 text [] rfl]
    simp
  · rw [hraw]
    rw [patternPasses_pmh entities0 text [] rfl]
    simp
  · rw [hraw]
    exact patternPasses_vits entities0 text

theorem C8_witness :
    extract_entities (fun _ => .error (str "boom")) (str "x") =
      extract_entities (fun _ => .ok []) (str "x") ∧
    dget (rawEntities (fun _ => .error (str "boom")) (str "x")) (str "medications") =
      some (.strs (extract_medications_by_patterns (str "x") ++
        (extract_from_sections (str "x")).medications)) ∧
    dget (rawEntities (fun _ => .error (str "boom")) (str "x")) (str "past_medical_history") =
      some (.strs (extract_conditions_by_patterns (str "x") ++
        (extract_from_sections (str "x")).past_medical_history)) ∧
    dget (rawEntities (fun _ => .error (str "boom")) (str "x")) (str "vitals_with_values") =
      some (.vits (extract_vitals_with_values (str "x"))) :=
  C8_pipeline_failure _ (str "x") (str "boom") rfl

/-- C4 fails as stated for `/summarize`: the endpoint responds with a
rendered HTML template whose context has the seven keys `request`,
`text`, `history`, `summary`, `vitals`, `structured`, `diagnosis` — not
the two-field object `{summary, structured}`. -/
theorem C4_counterexample :
    isTemplate (summarize_endpoint (fun _ _ => 0) (fun _ => .ok [])
      (fun _ => .error (str "E")) (str "x")) = true ∧
    respCtxKeys (summarize_endpoint (fun _ _ => 0) (fun _ => .ok [])
      (fun _ => .error (str "E")) (str "x")) =
      [str "request", str "text", str "history", str "summary",
       str "vitals", str "structured", str "diagnosis"] ∧
    respCtxKeys (summarize_endpoint (fun _ _ => 0) (fun _ => .ok [])
      (fun _ => .error (str "E")) (str "x")) ≠ [str "summary", str "structured"] := by
  refine ⟨rfl, rfl, ?_⟩
  intro hEq
  have h7 : respCtxKeys (summarize_endpoint (fun _ _ => 0) (fun _ => .ok [])
      (fun _ => .error (str "E")) (str "x")) =
      [str "request", str "text", str "history", str "summary",
       str "vitals", str "structured", str "diagnosis"] := rfl
  rw [hEq] at h7
  have := congrArg List.length h7
  simp at this

/-- C4 (amended): `POST /summarize` responds with the rendered
`result.html` template whose context contains `summary` (the summary
text) and `structured` (the extracted entity mapping) among `request`,
`text`, `history`, `vitals` and `diagnosis`; `POST /diagnose` responds
with `{"diagnosis": …}`. -/
theorem C4_amended_shapes (sim : Str → Str → ℚ) (nlp : Str → Except Str (List NlpEnt))
    (callApi : Str → Except Str Str) (text : Str) (req : DiagnosisRequest) :
    (∃ ctx, summarize_endpoint sim nlp callApi text = .template (str "result.html") ctx ∧
      ctx.map Prod.fst = [str "request", str "text", str "history", str "summary",
        str "vitals", str "structured", str "diagnosis"] ∧
      lookupCtx ctx (str "summary") =
        some (.vstr (summarize_note sim (clean_form_data text))) ∧
      lookupCtx ctx (str "structured") =
        some (.vdict (extract_entities nlp (clean_form_data text)))) ∧
    diagnose_endpoint callApi req = .json [(str "diagnosis",
      suggest_diagnosis callApi req.symptoms req.conditions req.medications)] := by
  exact ⟨⟨_, rfl, rfl, rfl, rfl⟩, rfl⟩

theorem keysOf_dExtendStrs : ∀ (d : PyDict) (k : Str) (l : List Str),
    keysOf (dExtendStrs d k l) = keysOf d
  | [], _, _ => rfl
  | (k', v) :: t, k, l => by
    unfold dExtendStrs
    split <;> simp only [keysOf] <;> rw [keysOf_dExtendStrs t k l]

theorem keysOf_dAppendEnt : ∀ (d : PyDict) (k : Str) (e : AllEnt),
    keysOf (dAppendEnt d k e) = keysOf d
  | [], _, _ => rfl
  | (k', v) :: t, k, e => by
    unfold dAppendEnt
    split <;> simp only [keysOf] <;> rw [keysOf_dAppendEnt t k e]

theorem keysOf_applyEnt (d : PyDict) (e : NlpEnt) :
    keysOf (applyEnt d e) = keysOf d := by
  unfold applyEnt applyEntLabel
  split_ifs <;> simp [keysOf_dExtendStrs, keysOf_dAppendEnt]

theorem keysOf_foldl_applyEnt : ∀ (es : List NlpEnt) (d : PyDict),
    keysOf (es.foldl applyEnt d) = keysOf d
  | [], _ => rfl
  | e :: es, d => by
    rw [List.foldl_cons, keysOf_foldl_applyEnt es _, keysOf_applyEnt]

theorem mem_keysOf_dset : ∀ (d : PyDict) (k : Str) (v : EntVal) (k0 : Str),
    k0 ∈ keysOf d → k0 ∈ keysOf (dset d k v)
  | [], k, v, k0 => by intro h; simp [keysOf] at h
  | (k', v') :: t, k, v, k0 => by
    intro h
    unfold dset
    split
    · exact h
    · simp only [keysOf, List.mem_cons] at h ⊢
      rcases h with h | h
      · exact Or.inl h
      · exact Or.inr (mem_keysOf_dset t k v k0 h)

theorem mem_keysOf_foldSec : ∀ (prs : List (Str × List Str)) (d : PyDict) (k0 : Str),
    k0 ∈ keysOf d →
    k0 ∈ keysOf (prs.foldl
      (fun d pr => if hasKey d pr.1 then d else dset d pr.1 (.strs pr.2)) d)
  | [], _, _ => fun h => h
  | pr :: prs, d, k0 => fun h => by
    rw [List.foldl_cons]
    apply mem_keysOf_foldSec prs _ k0
    split
    · exact h
    · exact mem_keysOf_dset d pr.1 (.strs pr.2) k0 h

theorem mem_keysOf_patternPasses (d : PyDict) (text : Str) (k0 : Str)
    (h : k0 ∈ keysOf d) : k0 ∈ keysOf (patternPasses d text) := by
  have h1 : k0 ∈ keysOf (afterPatterns d text) := by
    unfold afterPatterns
    exact mem_keysOf_dset _ _ _ _
      (by rw [keysOf_dExtendStrs, keysOf_dExtendStrs]; exact h)
  have h2 : k0 ∈ keysOf (mergeSecMeds (afterPatterns d text) text) := by
    unfold mergeSecMeds
    split
    · rw [keysOf_dExtendStrs]; exact h1
    · exact h1
  have h3 : k0 ∈ keysOf (mergeSecPmh (mergeSecMeds (afterPatterns d text) text) text) := by
    unfold mergeSecPmh
    split
    · rw [keysOf_dExtendStrs]; exact h2
    · exact h2
  unfold patternPasses addSections
  split
  · exact h3
  · exact mem_keysOf_foldSec _ _ _ h3

theorem keysOf_cleanupDict : ∀ (d : PyDict), keysOf (cleanupDict d) = keysOf d
  | [] => rfl
  | (k, v) :: t => by
    unfold cleanupDict
    split <;> simp only [keysOf] <;> rw [keysOf_cleanupDict t]

theorem dget_isSome_of_mem_keysOf : ∀ (d : PyDict) (k : Str),
    k ∈ keysOf d → (dget d k).isSome
  | [], k => by intro h; simp [keysOf] at h
  | (k', v) :: t, k => by
    intro h
    unfold dget
    split
    · rfl
    · next hne =>
      simp only [keysOf, List.mem_cons] at h
      rcases h with h | h
      · exact absurd h.symm hne
      · exact dget_isSome_of_mem_keysOf t k h

theorem mkVital_has (vtype : Str) (m : MatchM) :
    vrHas (mkVital vtype m) (str "type") = true ∧
    vrHas (mkVital vtype m) (str "text") = true ∧
    (vrHas (mkVital vtype m) (str "value") = true ∨
     vrHas (mkVital vtype m) (str "systolic") = true ∧
     vrHas (mkVital vtype m) (str "diastolic") = true) := by
  unfold mkVital
  split_ifs
  · exact ⟨rfl, rfl, Or.inr ⟨rfl, rfl⟩⟩
  · exact ⟨rfl, rfl, Or.inl rfl⟩
  · exact ⟨rfl, rfl, Or.inl rfl⟩

theorem extract_vitals_shape (text : Str) (r : VitalRecord)
    (hr : r ∈ extract_vitals_with_values text) :
    vrHas r (str "type") = true ∧ vrHas r (str "text") = true ∧
    (vrHas r (str "value") = true ∨
     vrHas r (str "systolic") = true ∧ vrHas r (str "diastolic") = true) := by
  unfold extract_vitals_with_values at hr
  rw [List.mem_flatten] at hr
  obtain ⟨l, hl, hrl⟩ := hr
  rw [List.mem_map] at hl
  obtain ⟨pr, _, hpr⟩ := hl
  rw [← hpr, List.mem_map] at hrl
  obtain ⟨m, _, hm⟩ := hrl
  rw [← hm]
  exact mkVital_has pr.1 m

theorem dget_cleanupDict_excl : ∀ (d : PyDict) (k : Str), k ∈ excludedKeys →
    dget (cleanupDict d) k = dget d k
  | [], _, _ => rfl
  | (k', v) :: t, k, hk => by
    unfold cleanupDict
    by_cases he : k' ∈ excludedKeys
    · rw [if_pos he]
      show dget ((k', v) :: cleanupDict t) k = dget ((k', v) :: t) k
      unfold dget
      split
      · rfl
      · exact dget_cleanupDict_excl t k hk
    · rw [if_neg he]
      have hne : ¬ (k' = k) := fun h => he (h ▸ hk)
      show dget ((k', cleanVal v) :: cleanupDict t) k = dget ((k', v) :: t) k
      unfold dget
      rw [if_neg hne, if_neg hne]
      exact dget_cleanupDict_excl t k hk

/-- C10: for every input text, the dict returned by `extract_entities`
in `app.nlp.ner` contains at least the keys `past_medical_history`,
`medications`, `vitals`, `symptoms`, `plan`, `vitals_with_values` and
`all_entities`; its `vitals_with_values` entry is the list built by
`extract_vitals_with_values`, and every record of that list has the
fields `type` and `text` plus either a `value` field or both
`systolic` and `diastolic` — the shape the `/summarize` route handler
relies on. -/
theorem C10_keys_and_vitals_shape (nlp : Str → Except Str (List NlpEnt)) (text : Str) :
    (∀ k ∈ [str "past_medical_history", str "medications", str "vitals",
        str "symptoms", str "plan", str "vitals_with_values", str "all_entities"],
      (dget (extract_entities nlp text) k).isSome = true) ∧
    dget (extract_entities nlp text) (str "vitals_with_values") =
      some (.vits (extract_vitals_with_values text)) ∧
    ∀ r ∈ extract_vitals_with_values text,
      vrHas r (str "type") = true ∧ vrHas r (str "text") = true ∧
      (vrHas r (str "value") = true ∨
       vrHas r (str "systolic") = true ∧ vrHas r (str "diastolic") = true) := by
  refine ⟨?_, ?_, fun r hr => extract_vitals_shape text r hr⟩
  · intro k hk
    unfold extract_entities
    apply dget_isSome_of_mem_keysOf
    rw [keysOf_cleanupDict]
    unfold rawEntities
    apply mem_keysOf_patternPasses
    cases hnlp : nlp text with
    | ok es =>
      show k ∈ keysOf (es.foldl applyEnt entities0)
      rw [keysOf_foldl_applyEnt]
      exact hk
    | error e => exact hk
  · unfold extract_entities
    rw [dget_cleanupDict_excl _ _ (by decide)]
    unfold rawEntities
    cases hnlp : nlp text with
    | ok es => exact patternPasses_vits _ text
    | error e => exact patternPasses_vits _ text

/-! ## The cleanup filter (C7) -/

theorem pyStrip_idem (x : Str) : pyStrip (pyStrip x) = pyStrip x :=
  pyStrip_eq_self (headNW_pyStrip x) (lastNW_pyStrip x)

theorem wsB_lowCh (c : Char) : wsB (lowCh c) = wsB c := by
  unfold lowCh
  split <;> rfl

theorem dropWhile_map_lowCh : ∀ (l : Str),
    (l.map lowCh).dropWhile wsB = (l.dropWhile wsB).map lowCh
  | [] => rfl
  | c :: t => by
    rw [List.map_cons, List.dropWhile_cons, List.dropWhile_cons, wsB_lowCh]
    by_cases h : wsB c = true
    · rw [if_pos h, if_pos h]
      exact dropWhile_map_lowCh t
    · rw [if_neg h, if_neg h, List.map_cons]

theorem reverse_map_lowCh (l : Str) : (l.map lowCh).reverse = l.reverse.map lowCh := by
  simp

theorem pyLower_pyStrip (x : Str) : pyLower (pyStrip x) = pyStrip (pyLower x) := by
  simp only [pyStrip, pyStripL, pyStripR, pyLower]
  rw [dropWhile_map_lowCh, reverse_map_lowCh, dropWhile_map_lowCh, reverse_map_lowCh]

theorem cleanStrs_filter_props (l : List Str) (s : Str) (hs : s ∈ cleanStrs l) :
    (pyStrip s).length > 2 ∧ pyLower s ∉ stopWords ∧
    startsWithStr (str "-") s = false ∧ startsWithStr (str "•") s = false ∧
    pyIsDigit s = false := by
  simp only [cleanStrs, List.mem_filter, List.mem_map] at hs
  obtain ⟨⟨item, hitem, hps⟩, _⟩ := hs
  have hkeep := hitem.2
  simp only [keepItem, Bool.and_eq_true, Bool.not_eq_true', decide_eq_true_eq,
    decide_eq_false_iff_not] at hkeep
  obtain ⟨⟨⟨⟨hA, hB⟩, hC⟩, hD⟩, hE⟩ := hkeep
  subst hps
  refine ⟨?_, ?_, hC, hD, hE⟩
  · rw [pyStrip_idem]; exact hA
  · rw [pyLower_pyStrip]; exact hB

theorem dget_cleanupDict_rev : ∀ (d : PyDict) (k : Str) (v' : EntVal),
    dget (cleanupDict d) k = some v' →
    ∃ v, dget d k = some v ∧ v' = (if k ∈ excludedKeys then v else cleanVal v)
  | [], k, v' => by intro h; simp [cleanupDict, dget] at h
  | (k', v0) :: t, k, v' => by
    intro h
    unfold cleanupDict at h
    by_cases hk : k' = k
    · subst hk
      by_cases he : k' ∈ excludedKeys
      · rw [if_pos he] at h
        unfold dget at h
        rw [if_pos rfl] at h
        exact ⟨v0, by unfold dget; rw [if_pos rfl],
          by rw [if_pos he]; exact (Option.some.inj h).symm⟩
      · rw [if_neg he] at h
        unfold dget at h
        rw [if_pos rfl] at h
        exact ⟨v0, by unfold dget; rw [if_pos rfl],
          by rw [if_neg he]; exact (Option.some.inj h).symm⟩
    · have hrec : dget (cleanupDict t) k = some v' := by
        by_cases he : k' ∈ excludedKeys
        · rw [if_pos he] at h
          unfold dget at h
          rwa [if_neg hk] at h
        · rw [if_neg he] at h
          unfold dget at h
          rwa [if_neg hk] at h
      obtain ⟨v, hv, hval⟩ := dget_cleanupDict_rev t k v' hrec
      exact ⟨v, by unfold dget; rwa [if_neg hk], hval⟩

/-- C7: every string kept in a non-excluded entity list of
`extract_entities` passes the cleanup filter: its stripped form is
longer than 2, its lowercase form is not a stop word, it does not
start with `-` or `•`, and it is not a pure digit string. -/
theorem C7_stopword_minlength_filter (nlp : Str → Except Str (List NlpEnt))
    (text key : Str) (l : List Str) (s : Str)
    (hkey : key ∉ excludedKeys)
    (hget : dget (extract_entities nlp text) key = some (.strs l))
    (hs : s ∈ l) :
    (pyStrip s).length > 2 ∧ pyLower s ∉ stopWords ∧
    startsWithStr (str "-") s = false ∧ startsWithStr (str "•") s = false ∧
    pyIsDigit s = false := by
  unfold extract_entities at hget
  obtain ⟨v, hv, hval⟩ := dget_cleanupDict_rev _ _ _ hget
  rw [if_neg hkey] at hval
  cases v with
  | strs l0 =>
    have hll : l = cleanStrs l0 := by
      rw [show cleanVal (EntVal.strs l0) = EntVal.strs (cleanStrs l0) from rfl] at hval
      exact EntVal.strs.inj hval
    rw [hll] at hs
    exact cleanStrs_filter_props l0 s hs
  | vits lv => exact EntVal.noConfusion hval
  | ents le => exact EntVal.noConfusion hval

/-- Witness for C7 at a concrete input. -/
theorem C7_witness :
    (pyStrip (str "Aspirin")).length > 2 ∧ pyLower (str "Aspirin") ∉ stopWords ∧
    startsWithStr (str "-") (str "Aspirin") = false ∧
    startsWithStr (str "•") (str "Aspirin") = false ∧
    pyIsDigit (str "Aspirin") = false :=
  C7_stopword_minlength_filter
    (fun _ => Except.ok [⟨str "Aspirin", str "DRUG", 0, 7, none⟩])
    (str "") (str "medications") [str "Aspirin"] (str "Aspirin")
    (by decide) rfl (by decide)

theorem firstIdx_cons_ne {y x : Str} (h : y ≠ x) (t : List Str) :
    firstIdx x (y :: t) = firstIdx x t + 1 := by
  rw [show firstIdx x (y :: t) = if y = x then 0 else firstIdx x t + 1 from rfl, if_neg h]

theorem containsStr : ∀ (seen : List Str) (x : Str), seen.contains x = true ↔ x ∈ seen
  | [], x => by simp [List.contains]
  | y :: t, x => by
    rw [List.contains_cons]
    simp only [Bool.or_eq_true, beq_iff_eq]
    rw [containsStr t x]
    exact (List.mem_cons).symm

theorem nubAux_mem : ∀ (l seen : List Str) (x : Str),
    x ∈ nubAux seen l → x ∈ l ∧ x ∉ seen
  | [], seen, x => by
    intro h
    simp [nubAux] at h
  | y :: t, seen, x => by
    intro h
    unfold nubAux at h
    by_cases hc : seen.contains y = true
    · rw [if_pos hc] at h
      obtain ⟨hmem, hns⟩ := nubAux_mem t seen x h
      exact ⟨List.mem_cons_of_mem y hmem, hns⟩
    · rw [if_neg hc] at h
      rcases List.mem_cons.mp h with h | h
      · subst h
        exact ⟨List.mem_cons_self x t, fun hx => hc ((containsStr seen x).mpr hx)⟩
      · obtain ⟨hmem, hns⟩ := nubAux_mem t (y :: seen) x h
        refine ⟨List.mem_cons_of_mem y hmem, fun hx => hns (List.mem_cons_of_mem y hx)⟩

theorem nubAux_nodup : ∀ (l seen : List Str), (nubAux seen l).Nodup
  | [], _ => List.nodup_nil
  | y :: t, seen => by
    unfold nubAux
    by_cases hc : seen.contains y = true
    · rw [if_pos hc]
      exact nubAux_nodup t seen
    · rw [if_neg hc]
      refine List.nodup_cons.mpr ⟨?_, nubAux_nodup t (y :: seen)⟩
      intro hy
      exact (nubAux_mem t (y :: seen) y hy).2 (List.mem_cons_self y seen)

theorem nubAux_pairwise : ∀ (l seen : List Str),
    (nubAux seen l).Pairwise (fun a b => firstIdx a l < firstIdx b l)
  | [], _ => List.Pairwise.nil
  | y :: t, seen => by
    unfold nubAux
    by_cases hc : seen.contains y = true
    · rw [if_pos hc]
      refine (nubAux_pairwise t seen).imp_of_mem ?_
      intro a b ha hb hab
      have hay : y ≠ a := fun h =>
        (nubAux_mem t seen a ha).2 (by rw [← h] at *; exact (containsStr seen y).mp hc)
      have hby : y ≠ b := fun h =>
        (nubAux_mem t seen b hb).2 (by rw [← h] at *; exact (containsStr seen y).mp hc)
      rw [firstIdx_cons_ne hay t, firstIdx_cons_ne hby t]
      exact Nat.succ_lt_succ hab
    · rw [if_neg hc]
      refine List.pairwise_cons.mpr ⟨?_, ?_⟩
      · intro b hb
        have hby : y ≠ b := fun h =>
          (nubAux_mem t (y :: seen) b hb).2 (by rw [← h]; exact List.mem_cons_self y seen)
        have h0 : firstIdx y (y :: t) = 0 := by
          unfold firstIdx
          rw [if_pos rfl]
        rw [h0, firstIdx_cons_ne hby t]
        exact Nat.succ_pos _
      · refine (nubAux_pairwise t (y :: seen)).imp_of_mem ?_
        intro a b ha hb hab
        have hay : y ≠ a := fun h =>
          (nubAux_mem t (y :: seen) a ha).2 (by rw [← h]; exact List.mem_cons_self y seen)
        have hby : y ≠ b := fun h =>
          (nubAux_mem t (y :: seen) b hb).2 (by rw [← h]; exact List.mem_cons_self y seen)
        rw [firstIdx_cons_ne hay t, firstIdx_cons_ne hby t]
        exact Nat.succ_lt_succ hab

theorem cleanStrs_eq (l : List Str) : cleanStrs l =
    (((nubStr l).filter keepItem).map pyStrip).filter
      (fun item => pyStrip item ≠ []) := rfl

theorem cleanStrs_nodup_order (l0 : List Str) (hstr : ∀ x ∈ l0, pyStrip x = x) :
    (cleanStrs l0).Nodup ∧ (∀ x ∈ cleanStrs l0, x ∈ l0) ∧
    (cleanStrs l0).Pairwise (fun a b => firstIdx a l0 < firstIdx b l0) := by
  have hmapid : ((nubStr l0).filter keepItem).map pyStrip
      = (nubStr l0).filter keepItem := by
    have hid : ∀ x ∈ (nubStr l0).filter keepItem, pyStrip x = id x := by
      intro x hx
      exact hstr x (nubAux_mem l0 [] x (List.mem_filter.mp hx).1).1
    rw [List.map_congr_left hid, List.map_id]
  rw [cleanStrs_eq, hmapid]
  refine ⟨List.Nodup.filter _ (List.Nodup.filter _ (nubAux_nodup l0 [])), ?_, ?_⟩
  · intro x hx
    exact (nubAux_mem l0 [] x (List.mem_filter.mp (List.mem_filter.mp hx).1).1).1
  · exact List.Pairwise.filter _ (List.Pairwise.filter _ (nubAux_pairwise l0 []))

theorem stripped_meds (text : Str) :
    ∀ x ∈ extract_medications_by_patterns text, pyStrip x = x := by
  intro x hx
  unfold extract_medications_by_patterns at hx
  rw [List.mem_flatten] at hx
  obtain ⟨l, hl, hxl⟩ := hx
  rw [List.mem_map] at hl
  obtain ⟨p, _, hp⟩ := hl
  rw [← hp, List.mem_filterMap] at hxl
  obtain ⟨m, _, hm⟩ := hxl
  dsimp only at hm
  split at hm
  · exact Option.noConfusion hm
  · split at hm
    · rw [← Option.some.inj hm]
      exact pyStrip_idem _
    · exact Option.noConfusion hm

theorem stripped_conds (text : Str) :
    ∀ x ∈ extract_conditions_by_patterns text, pyStrip x = x := by
  intro x hx
  unfold extract_conditions_by_patterns at hx
  rw [List.mem_flatten] at hx
  obtain ⟨l, hl, hxl⟩ := hx
  rw [List.mem_map] at hl
  obtain ⟨p, _, hp⟩ := hl
  rw [← hp, List.mem_filterMap] at hxl
  obtain ⟨m, _, hm⟩ := hxl
  dsimp only at hm
  split at hm
  · exact Option.noConfusion hm
  · split at hm
    · rw [← Option.some.inj hm]
      exact pyStrip_idem _
    · exact Option.noConfusion hm

theorem lastNW_dropWhileWs {t : Str} (hne : t.dropWhile wsB ≠ [])
    (ht : lastNW t = true) : lastNW (t.dropWhile wsB) = true := by
  have hrev : t.reverse = (t.dropWhile wsB).reverse ++ (t.takeWhile wsB).reverse := by
    rw [← List.reverse_append, List.takeWhile_append_dropWhile]
  unfold lastNW at ht ⊢
  rw [hrev, headNW_append_left _ _ (by simpa using hne)] at ht
  exact ht

theorem stripLeadMarker_cases (c : Char) (t : Str) :
    stripLeadMarker (c :: t) = t.dropWhile wsB ∨ stripLeadMarker (c :: t) = c :: t := by
  have h : stripLeadMarker (c :: t) =
      if c.isDigit || c = '.' || c = '-' || c = '*' || c = '+' then t.dropWhile wsB
      else c :: t := rfl
  rw [h]
  split
  · exact Or.inl rfl
  · exact Or.inr rfl

theorem stripLeadMarker_stripped {s : Str} (hstr : pyStrip s = s)
    (hne : stripLeadMarker s ≠ []) :
    pyStrip (stripLeadMarker s) = stripLeadMarker s := by
  cases s with
  | nil => exact absurd rfl hne
  | cons c t =>
    rcases stripLeadMarker_cases c t with hr | hr <;> rw [hr] at hne ⊢
    · refine pyStrip_eq_self (headNW_dropWhileWs t) (lastNW_dropWhileWs hne ?_)
      have hlast : lastNW (c :: t) = true := by
        rw [← hstr]
        exact lastNW_pyStrip _
      cases t with
      | nil => exact absurd rfl hne
      | cons d u =>
        rw [lastNW_cons_of_ne (by simp)] at hlast
        exact hlast
    · exact hstr

theorem stripped_sectionLines (st : Str) : ∀ x ∈ sectionLines st, pyStrip x = x := by
  intro x hx
  unfold sectionLines at hx
  rw [List.mem_filterMap] at hx
  obtain ⟨line0, _, hline⟩ := hx
  dsimp only at hline
  split at hline
  · split at hline
    · next h2 =>
      rw [← Option.some.inj hline]
      exact stripLeadMarker_stripped (pyStrip_idem line0) h2
    · exact Option.noConfusion hline
  · exact Option.noConfusion hline

theorem stripped_secMeds (text : Str) :
    ∀ x ∈ (extract_from_sections text).medications, pyStrip x = x := by
  intro x hx
  unfold extract_from_sections at hx
  rw [List.mem_flatten] at hx
  obtain ⟨l, hl, hxl⟩ := hx
  rw [List.mem_map] at hl
  obtain ⟨m, _, hm⟩ := hl
  rw [← hm] at hxl
  dsimp only at hxl
  rw [List.mem_append] at hxl
  rcases hxl with h | h
  · exact stripped_meds _ x h
  · exact stripped_sectionLines _ x h

theorem stripped_secPmh (text : Str) :
    ∀ x ∈ (extract_from_sections text).past_medical_history, pyStrip x = x := by
  intro x hx
  unfold extract_from_sections at hx
  rw [List.mem_flatten] at hx
  obtain ⟨l, hl, hxl⟩ := hx
  rw [List.mem_map] at hl
  obtain ⟨m, _, hm⟩ := hl
  rw [← hm] at hxl
  dsimp only at hxl
  rw [List.mem_append] at hxl
  rcases hxl with h | h
  · exact stripped_conds _ x h
  · exact stripped_sectionLines _ x h

theorem stripped_bySections (text : Str) (pr : Str × List Str)
    (hpr : pr ∈ extract_by_sections text) : ∀ x ∈ pr.2, pyStrip x = x := by
  intro x hx
  unfold extract_by_sections at hpr
  rw [List.mem_map] at hpr
  obtain ⟨q, _, hq⟩ := hpr
  rw [← hq] at hx
  rw [List.mem_filterMap] at hx
  obtain ⟨m, _, hm⟩ := hx
  dsimp only at hm
  split at hm
  · rw [← Option.some.inj hm]
    exact pyStrip_idem _
  · exact Option.noConfusion hm

theorem strippedVal_appendEntVal (v : EntVal) (e : AllEnt) (h : strippedVal v) :
    strippedVal (appendEntVal v e) := by
  cases v with
  | strs l => exact h
  | vits l => exact trivial
  | ents l => exact trivial

theorem strippedDict_entities0 : strippedDict entities0 := by
  intro kv hkv
  simp only [entities0, List.mem_cons, List.not_mem_nil, or_false] at hkv
  rcases hkv with rfl | rfl | rfl | rfl | rfl | rfl | rfl <;> simp [strippedVal]

theorem strippedDict_dExtendStrs : ∀ (d : PyDict) (k : Str) (l : List Str),
    strippedDict d → (∀ x ∈ l, pyStrip x = x) → strippedDict (dExtendStrs d k l)
  | [], _, _ => by
    intro _ _ kv hkv
    simp [dExtendStrs] at hkv
  | (k', v) :: t, k, l => by
    intro hd hl kv hkv
    unfold dExtendStrs at hkv
    rcases List.mem_cons.mp hkv with rfl | hkv
    · split
      · have hv := hd (k', v) (List.mem_cons_self _ _)
        cases v with
        | strs l0 =>
          intro x hx
          rcases List.mem_append.mp hx with h | h
          · exact hv x h
          · exact hl x h
        | vits lv => exact trivial
        | ents le => exact trivial
      · exact hd (k', v) (List.mem_cons_self _ _)
    · exact strippedDict_dExtendStrs t k l
        (fun kv' hkv' => hd kv' (List.mem_cons_of_mem _ hkv')) hl kv hkv

theorem strippedDict_dAppendEnt : ∀ (d : PyDict) (k : Str) (e : AllEnt),
    strippedDict d → strippedDict (dAppendEnt d k e)
  | [], _, _ => by
    intro _ kv hkv
    simp [dAppendEnt] at hkv
  | (k', v) :: t, k, e => by
    intro hd kv hkv
    unfold dAppendEnt at hkv
    rcases List.mem_cons.mp hkv with rfl | hkv
    · split
      · exact strippedVal_appendEntVal v e (hd (k', v) (List.mem_cons_self _ _))
      · exact hd (k', v) (List.mem_cons_self _ _)
    · exact strippedDict_dAppendEnt t k e
        (fun kv' hkv' => hd kv' (List.mem_cons_of_mem _ hkv')) kv hkv

theorem strippedDict_dset : ∀ (d : PyDict) (k : Str) (v : EntVal),
    strippedDict d → strippedVal v → strippedDict (dset d k v)
  | [], k, v => by
    intro _ hv kv hkv
    simp only [dset, List.mem_cons, List.not_mem_nil, or_false] at hkv
    subst hkv
    exact hv
  | (k', v') :: t, k, v => by
    intro hd hv kv hkv
    unfold dset at hkv
    split at hkv
    · rcases List.mem_cons.mp hkv with rfl | hkv
      · exact hv
      · exact hd _ (List.mem_cons_of_mem _ hkv)
    · rcases List.mem_cons.mp hkv with rfl | hkv
      · exact hd _ (List.mem_cons_self _ _)
      · exact strippedDict_dset t k v
          (fun kv' hkv' => hd kv' (List.mem_cons_of_mem _ hkv')) hv kv hkv

theorem strippedDict_applyEnt (d : PyDict) (e : NlpEnt)
    (hd : strippedDict d) (he : pyStrip e.text = e.text) :
    strippedDict (applyEnt d e) := by
  unfold applyEnt applyEntLabel
  have hbase := strippedDict_dAppendEnt d (str "all_entities") (entToAll e) hd
  have hsingle : ∀ x ∈ [e.text], pyStrip x = x := by
    intro x hx
    rw [List.mem_singleton] at hx
    rw [hx]
    exact he
  split_ifs <;> first
    | exact strippedDict_dExtendStrs _ _ _ hbase hsingle
    | exact hbase

theorem strippedDict_foldl : ∀ (es : List NlpEnt) (d : PyDict),
    strippedDict d → (∀ e ∈ es, pyStrip e.text = e.text) →
    strippedDict (es.foldl applyEnt d)
  | [], d, hd, _ => hd
  | e :: es, d, hd, hes => by
    rw [List.foldl_cons]
    exact strippedDict_foldl es _
      (strippedDict_applyEnt d e hd (hes e (List.mem_cons_self _ _)))
      (fun e' he' => hes e' (List.mem_cons_of_mem _ he'))

theorem strippedDict_foldSec : ∀ (prs : List (Str × List Str)) (d : PyDict),
    strippedDict d → (∀ pr ∈ prs, ∀ x ∈ pr.2, pyStrip x = x) →
    strippedDict (prs.foldl
      (fun d pr => if hasKey d pr.1 then d else dset d pr.1 (.strs pr.2)) d)
  | [], d, hd, _ => hd
  | pr :: prs, d, hd, hprs => by
    rw [List.foldl_cons]
    refine strippedDict_foldSec prs _ ?_
      (fun pr' hpr' => hprs pr' (List.mem_cons_of_mem _ hpr'))
    split
    · exact hd
    · exact strippedDict_dset d pr.1 (.strs pr.2) hd (hprs pr (List.mem_cons_self _ _))

theorem strippedDict_patternPasses (d : PyDict) (text : Str) (hd : strippedDict d) :
    strippedDict (patternPasses d text) := by
  have h1 : strippedDict (afterPatterns d text) := by
    unfold afterPatterns
    refine strippedDict_dset _ _ _ ?_ trivial
    refine strippedDict_dExtendStrs _ _ _ ?_ (stripped_conds text)
    exact strippedDict_dExtendStrs _ _ _ hd (stripped_meds text)
  have h2 : strippedDict (mergeSecMeds (afterPatterns d text) text) := by
    unfold mergeSecMeds
    split
    · exact strippedDict_dExtendStrs _ _ _ h1 (stripped_secMeds text)
    · exact h1
  have h3 : strippedDict (mergeSecPmh (mergeSecMeds (afterPatterns d text) text) text) := by
    unfold mergeSecPmh
    split
    · exact strippedDict_dExtendStrs _ _ _ h2 (stripped_secPmh text)
    · exact h2
  unfold patternPasses addSections
  split
  · exact h3
  · exact strippedDict_foldSec _ _ h3 (fun pr hpr => stripped_bySections text pr hpr)

theorem strippedDict_rawEntities (nlp : Str → Except Str (List NlpEnt)) (text : Str)
    (hnlp : ∀ es, nlp text = Except.ok es → ∀ e ∈ es, pyStrip e.text = e.text) :
    strippedDict (rawEntities nlp text) := by
  unfold rawEntities
  apply strippedDict_patternPasses
  cases hn : nlp text with
  | ok es => exact strippedDict_foldl es entities0 strippedDict_entities0 (hnlp es hn)
  | error e => exact strippedDict_entities0

theorem mem_of_dget : ∀ (d : PyDict) (k : Str) (v : EntVal),
    dget d k = some v → (k, v) ∈ d
  | [], _, _ => fun h => Option.noConfusion h
  | (k', v') :: t, k, v => by
    intro h
    unfold dget at h
    split at h
    · next hk =>
      subst hk
      rw [← Option.some.inj h]
      exact List.mem_cons_self _ _
    · exact List.mem_cons_of_mem _ (mem_of_dget t k v h)

theorem lookupStrs_map_nub : ∀ (d : List (Str × List Str)) (k : Str),
    lookupStrs (d.map (fun kv => (kv.1, nubStr kv.2))) k =
      (lookupStrs d k).map nubStr
  | [], _ => rfl
  | (k', v) :: t, k => by
    rw [List.map_cons]
    unfold lookupStrs
    by_cases h : k' = k
    · rw [if_pos h, if_pos h]
      rfl
    · rw [if_neg h, if_neg h]
      exact lookupStrs_map_nub t k

/-- C6: each entity-category list returned by `extract_entities` is
duplicate-free and keeps its elements in first-occurrence order.  For
`app/nlp/ner.py` this holds for every non-excluded key relative to the
pre-cleanup list, provided the NLP oracle emits stripped entity texts
(spaCy span texts carry no outer whitespace); the kept elements come
from the pre-cleanup list and are ordered by their first occurrence in
it.  For `app/extractor.py` the final per-key list is exactly the
first-occurrence deduplication of the classified-sentence list. -/
theorem C6_dedup_first_occurrence (nlp : Str → Except Str (List NlpEnt))
    (text key : Str) (l l0 : List Str)
    (predict : Str → Fin 4) (text2 key2 : Str) (l2 : List Str) :
    ((∀ es, nlp text = Except.ok es → ∀ e ∈ es, pyStrip e.text = e.text) →
     key ∉ excludedKeys →
     dget (rawEntities nlp text) key = some (.strs l0) →
     dget (extract_entities nlp text) key = some (.strs l) →
     l.Nodup ∧ (∀ x ∈ l, x ∈ l0) ∧
       l.Pairwise (fun a b => firstIdx a l0 < firstIdx b l0)) ∧
    (lookupStrs (extract_entities_cls_raw predict text2) key2 = some l2 →
     lookupStrs (extract_entities_cls predict text2) key2 = some (nubStr l2) ∧
     (nubStr l2).Nodup ∧ (∀ x ∈ nubStr l2, x ∈ l2) ∧
     (nubStr l2).Pairwise (fun a b => firstIdx a l2 < firstIdx b l2)) := by
  constructor
  · intro hnlp hkey hraw hget
    unfold extract_entities at hget
    obtain ⟨v, hv, hval⟩ := dget_cleanupDict_rev _ _ _ hget
    rw [if_neg hkey] at hval
    have hv0 : v = EntVal.strs l0 := Option.some.inj (hv.symm.trans hraw)
    subst hv0
    have hll : l = cleanStrs l0 := by
      rw [show cleanVal (EntVal.strs l0) = EntVal.strs (cleanStrs l0) from rfl] at hval
      exact EntVal.strs.inj hval
    have hstr : ∀ x ∈ l0, pyStrip x = x :=
      strippedDict_rawEntities nlp text hnlp (key, EntVal.strs l0)
        (mem_of_dget _ _ _ hraw)
    rw [hll]
    exact cleanStrs_nodup_order l0 hstr
  · intro hlook
    refine ⟨?_, nubAux_nodup l2 [], fun x hx => (nubAux_mem l2 [] x hx).1,
      nubAux_pairwise l2 []⟩
    unfold extract_entities_cls
    rw [lookupStrs_map_nub, hlook]
    rfl

/-- Witness for C6 at concrete inputs: a repeated NLP medication is
deduplicated by the ner.py cleanup, and a repeated classified sentence
is deduplicated by the extractor.py pass. -/
theorem C6_witness :
    ([str "Aspirin"].Nodup ∧
     (∀ x ∈ [str "Aspirin"], x ∈ [str "Aspirin", str "Aspirin"]) ∧
     [str "Aspirin"].Pairwise (fun a b =>
       firstIdx a [str "Aspirin", str "Aspirin"] <
       firstIdx b [str "Aspirin", str "Aspirin"])) ∧
    (lookupStrs (extract_entities_cls (fun _ => 0) (str "Hi. Hi.")) (str "symptoms") =
       some (nubStr [str "Hi.", str "Hi."]) ∧
     (nubStr [str "Hi.", str "Hi."]).Nodup ∧
     (∀ x ∈ nubStr [str "Hi.", str "Hi."], x ∈ [str "Hi.", str "Hi."]) ∧
     (nubStr [str "Hi.", str "Hi."]).Pairwise (fun a b =>
       firstIdx a [str "Hi.", str "Hi."] < firstIdx b [str "Hi.", str "Hi."])) :=
  ⟨(C6_dedup_first_occurrence
      (fun _ => Except.ok [⟨str "Aspirin", str "DRUG", 0, 7, none⟩,
        ⟨str "Aspirin", str "DRUG", 10, 17, none⟩])
      (str "") (str "medications") [str "Aspirin"] [str "Aspirin", str "Aspirin"]
      (fun _ => 0) (str "Hi. Hi.") (str "symptoms") [str "Hi.", str "Hi."]).1
    (by intro es hes; injection hes with h; subst h; decide)
    (by decide) rfl rfl,
   (C6_dedup_first_occurrence
      (fun _ => Except.ok [⟨str "Aspirin", str "DRUG", 0, 7, none⟩,
        ⟨str "Aspirin", str "DRUG", 10, 17, none⟩])
      (str "") (str "medications") [str "Aspirin"] [str "Aspirin", str "Aspirin"]
      (fun _ => 0) (str "Hi. Hi.") (str "symptoms") [str "Hi.", str "Hi."]).2 rfl⟩
